import Mathlib

/-!
# BridgeFS: a verification development

This file embeds the BridgeFS core (the content-addressed object graph, the
inode index and the filesystem operations engine from `bridgefs-core`, together
with the root-initialization helper from `bridgefs-fuse`) into Lean, and proves
or refutes the specified properties of the system against that embedding.

Two models are developed.

1. An engine model (sections below up to the codec).  Because the binary
   encoding is injective on canonical values (proved in the codec section) and
   the BLAKE3 hash is treated as collision free, a typed hash pointer uniquely
   determines the value it addresses.  The engine model therefore identifies a
   typed hash pointer with the value it points to: the blob store is the set of
   blobs present, the root reference holds the inode index it addresses, and
   `get_parsed` of a pointer returns the pointed value.  The reference manifest
   is modelled as a count function (an absent key has count 0, matching
   `Manifest::has_reference`, since the Rust map never stores a zero count).
   Machine arithmetic on `usize` is kept faithful: additions that can overflow
   are taken modulo 2^64 and out-of-range slicing is modelled as a crash,
   mirroring a Rust panic in an optimized (wrapping) build.

2. A byte-level codec model (`Codec` namespace) of the bincode standard
   encoding used by `ParsingContentStoreExt`, with the wire form of every
   record type, and a byte-level model of `InMemoryContentStore`, where the
   cryptographic hash is idealized as an injective function of the encoded
   bytes.
-/

set_option maxRecDepth 4000

namespace BridgeFS

/-- The usize modulus: the Rust targets in this repository are 64 bit. -/
def USIZE : Nat := 2 ^ 64

/-- `INode` from `bridgefs-core/src/inode.rs`: a newtype over `u64`. -/
structure INode where
  val : Nat
deriving DecidableEq, Repr

/-- `INode::next_inode`: returns the successor inode (the source takes
`&mut self` but only reads it).  The `u64` addition `self.0 + 1` wraps
modulo 2^64, in the same release semantics used for `usize` throughout
this model. -/
def INode.next_inode (i : INode) : INode := ⟨(i.val + 1) % USIZE⟩

/-- `impl Default for INode`: the default inode is 2. -/
def INode.default : INode := ⟨2⟩

/-- `Filename` from `bridgefs-core/src/filename.rs`: a byte sequence. -/
structure Filename where
  name : List Nat
deriving DecidableEq, Repr

/-- `CommonAttrs` from `bridgefs-core/src/file_record.rs`.  Timestamps are
modelled as natural numbers (an opaque clock value). -/
structure CommonAttrs where
  perm : Nat
  uid : Nat
  gid : Nat
  atime : Nat
  mtime : Nat
  ctime : Nat
  crtime : Nat
deriving DecidableEq, Repr

/-- `CommonAttrs::default()` (the `bon` builder defaults): perm `0o755`,
uid 501, gid 20, all four timestamps set to the construction time `now`. -/
def CommonAttrs.mkDefault (now : Nat) : CommonAttrs :=
  ⟨0o755, 501, 20, now, now, now, now⟩

/-- `DataBlock` from `bridgefs-core/src/data_block.rs`. -/
structure DataBlock where
  data : List Nat
deriving DecidableEq, Repr

/-- `DataBlock::len`. -/
def DataBlock.len (d : DataBlock) : Nat := d.data.length

/-- `DataBlock::default()`: empty payload. -/
def DataBlock.empty : DataBlock := ⟨[]⟩

/-- `FileRecord` from `bridgefs-core/src/file_record.rs`.  Under the
pointer-as-value idealization the typed hash pointer to the content
`DataBlock` is represented by that `DataBlock`. -/
structure FileRecord where
  content_hash : DataBlock
  size : Nat
  common_attrs : CommonAttrs
deriving DecidableEq, Repr

/-- Association-list lookup, the model of `HashMap::get`. -/
def lookupA {κ α : Type} [DecidableEq κ] : List (κ × α) → κ → Option α
  | [], _ => none
  | (k, v) :: rest, key => if key = k then some v else lookupA rest key

/-- Association-list insert-or-replace, the model of `HashMap::insert`. -/
def insertA {κ α : Type} [DecidableEq κ] : List (κ × α) → κ → α → List (κ × α)
  | [], key, value => [(key, value)]
  | (k, v) :: rest, key, value =>
      if key = k then (key, value) :: rest else (k, v) :: insertA rest key value

/-- Association-list removal, the model of `HashMap::remove`. -/
def removeA {κ α : Type} [DecidableEq κ] : List (κ × α) → κ → List (κ × α)
  | [], _ => []
  | (k, v) :: rest, key => if key = k then rest else (k, v) :: removeA rest key

/-- `DirectoryRecord` from `bridgefs-core/src/file_record.rs`.  The
`children` hash map is modelled as an association list; the list order
stands for the (arbitrary) iteration order of the Rust `HashMap`. -/
structure DirectoryRecord where
  children : List (Filename × INode)
  common_attrs : CommonAttrs
  parent : INode
deriving DecidableEq, Repr

/-- `impl Default for DirectoryRecord` (derived): empty children, default
attributes, and crucially `parent = INode::default() = 2`. -/
def DirectoryRecord.mkDefault (now : Nat) : DirectoryRecord :=
  ⟨[], CommonAttrs.mkDefault now, INode.default⟩

/-- `DirectoryRecord::insert`. -/
def DirectoryRecord.insert (d : DirectoryRecord) (f : Filename) (i : INode) :
    DirectoryRecord :=
  { d with children := insertA d.children f i }

/-- `DirectoryRecord::remove` (the returned inode is unused by the engine). -/
def DirectoryRecord.remove (d : DirectoryRecord) (f : Filename) :
    DirectoryRecord :=
  { d with children := removeA d.children f }

/-- `DirectoryRecord::get`. -/
def DirectoryRecord.get (d : DirectoryRecord) (f : Filename) : Option INode :=
  lookupA d.children f

/-- `Record` from `bridgefs-core/src/file_record.rs`. -/
inductive Record where
  | file : FileRecord → Record
  | directory : DirectoryRecord → Record
deriving DecidableEq, Repr

/-- `Record::set_attrs`. -/
def Record.set_attrs : Record → CommonAttrs → Record
  | .file f, a => .file { f with common_attrs := a }
  | .directory d, a => .directory { d with common_attrs := a }

/-- Modelled from the spec: the `INodeIndex` snapshot structure.  Its defining
module is not under `src/` (only its callers in `bridgefs.rs` and
`fuse_store_ext.rs` are), so it is modelled from spec section 4.G: a
`next_inode` counter and an inode-to-record-hash mapping.  Under the
pointer-as-value idealization the typed record hash is the `Record` itself. -/
structure INodeIndex where
  next_inode : INode
  inode_mapping : List (INode × Record)
deriving DecidableEq, Repr

/-- Modelled from the spec: `INodeIndex::new(root_inode, root_record_hash)`
produces the mapping with exactly the one root entry and `next_inode = 2`
(`INode::default()`). -/
def INodeIndex.new (root_inode : INode) (root : Record) : INodeIndex :=
  ⟨INode.default, [(root_inode, root)]⟩

/-- Modelled from the spec: `INodeIndex::insert_new_inode(record_hash)`
allocates `next_inode`, stores the mapping, increments the counter and
returns the allocated inode. -/
def INodeIndex.insert_new_inode (x : INodeIndex) (hash : Record) :
    INodeIndex × INode :=
  let inode := x.next_inode
  (⟨x.next_inode.next_inode, insertA x.inode_mapping inode hash⟩, inode)

/-- Modelled from the spec: `INodeIndex::update_inode` replaces the mapping
for an inode (the engine only calls it on inodes it has just looked up). -/
def INodeIndex.update_inode (x : INodeIndex) (inode : INode) (hash : Record) :
    INodeIndex :=
  ⟨x.next_inode, insertA x.inode_mapping inode hash⟩

/-- Modelled from the spec: `INodeIndex::lookup_inode` is a map lookup. -/
def INodeIndex.lookup_inode (x : INodeIndex) (inode : INode) : Option Record :=
  lookupA x.inode_mapping inode

/-- A stored blob: every blob in the store is the encoding of exactly one
`DataBlock`, `Record` or `INodeIndex`.  Under the idealization a blob is
identified with the value it encodes, and an untyped `HashPointer` is
identified with the blob it addresses. -/
inductive Blob where
  | data : DataBlock → Blob
  | record : Record → Blob
  | index : INodeIndex → Blob
deriving DecidableEq, Repr

/-- The model of `Manifest` from `bridgefs-core/src/manifest.rs`: reference
counts per hash.  An absent map key is represented by count 0, which is
equivalent to the source because `remove_reference` deletes an entry as soon
as its count reaches 0, so a present key always has positive count. -/
def Manifest := Blob → Nat

/-- `Manifest::new` / `Manifest::default`. -/
def Manifest.empty : Manifest := fun _ => 0

/-- `Manifest::add_reference`: insert with count 1 or increment. -/
def Manifest.add_reference (m : Manifest) (r : Blob) : Manifest :=
  fun x => if x = r then m x + 1 else m x

/-- `Manifest::remove_reference`: a no-op on an absent key, otherwise
decrement (removing the entry at zero). -/
def Manifest.remove_reference (m : Manifest) (r : Blob) : Manifest :=
  fun x => if x = r then m x - 1 else m x

/-- `Manifest::has_reference`: key present, i.e. positive count. -/
def Manifest.has_reference (m : Manifest) (r : Blob) : Prop := m r ≠ 0

/-- The engine state: the `BridgeFS` struct of `bridgefs-core/src/bridgefs.rs`
together with its `CountingStore`.  `root` is the inode index addressed by the
hash held in the root `TypedHashPointerReference` (pointer-as-value), `store`
is the set of blobs present in the content store, `manifest` the reference
counts. -/
structure FS where
  root : INodeIndex
  store : List Blob
  manifest : Manifest

/-- `InMemoryContentStore::add_content` at blob level: content addressing
makes a duplicate put a no-op. -/
def addBlob (s : List Blob) (b : Blob) : List Blob :=
  if b ∈ s then s else b :: s

/-- `CountingStore::store_new_content`: put the blob, increment its count. -/
def FS.store_new (s : FS) (b : Blob) : FS :=
  { s with store := addBlob s.store b,
           manifest := s.manifest.add_reference b }

/-- `delete_references` for `DataBlock` (no outgoing references) followed by
the manifest decrement of `CountingStore::delete_content`. -/
def FS.delete_data (s : FS) (d : DataBlock) : FS :=
  { s with manifest := s.manifest.remove_reference (.data d) }

/-- `CountingStore::delete_content::<Record>`: decrement the record, then
`Record::delete_references`, which cascades into the content hash for a file
and does nothing for a directory.  Note that the cascade runs on the OLD
value and ignores the optional replacement value entirely, exactly as in
`bridgefs-core/src/file_record.rs`. -/
def FS.delete_record (s : FS) (r : Record) : FS :=
  let s1 := { s with manifest := s.manifest.remove_reference (.record r) }
  match r with
  | .file f => s1.delete_data f.content_hash
  | .directory _ => s1

/-- `CountingStore::replace_content::<DataBlock>`: decrement the previous
hash, cascade (a no-op for data), store the new value. -/
def FS.replace_data (s : FS) (prev value : DataBlock) : FS :=
  let s1 := { s with manifest := s.manifest.remove_reference (.data prev) }
  s1.store_new (.data value)

/-- `CountingStore::replace_content::<Record>`: decrement the previous hash,
run the old value cascade (which ignores the new value), store the new. -/
def FS.replace_record (s : FS) (prev value : Record) : FS :=
  (s.delete_record prev).store_new (.record value)

/-- `CountingStore::replace_content::<INodeIndex>`: decrement the previous
hash, cascade (modelled from the spec: the index deliberately has no
outgoing-reference cascade), store the new. -/
def FS.replace_index (s : FS) (prev value : INodeIndex) : FS :=
  let s1 := { s with manifest := s.manifest.remove_reference (.index prev) }
  s1.store_new (.index value)

/-- `FileOperationError` from `bridgefs-core/src/response.rs`. -/
inductive FileOperationError where
  | notFound
  | notADirectory
  | isADirectory
  | directoryNotEmpty
  | alreadyExists
deriving DecidableEq, Repr

/-- The outcome of an engine call: a value, an error from the closed
taxonomy, or a crash (modelling a Rust panic, e.g. out-of-range slicing). -/
inductive Res (α : Type) where
  | ok : α → Res α
  | err : FileOperationError → Res α
  | crash
deriving DecidableEq, Repr

/-- `INodeResponse` from `bridgefs-core/src/response.rs`; `source` is the
typed hash pointer of the underlying record (pointer-as-value). -/
structure INodeResponse (α : Type) where
  inner : α
  inode : INode
  source : Record
deriving DecidableEq, Repr

/-- `ReadFileResponse` from `bridgefs-core/src/response.rs`. -/
structure ReadFileResponse where
  file : INodeResponse FileRecord
  datablock : DataBlock
deriving DecidableEq, Repr

/-- `ListDirectoryEntry` from `bridgefs-core/src/response.rs`. -/
structure ListDirectoryEntry where
  name : Filename
  record : INodeResponse Record
deriving DecidableEq, Repr

/-- `ListDirectoryResponse` from `bridgefs-core/src/response.rs`. -/
structure ListDirectoryResponse where
  directory : INodeResponse DirectoryRecord
  entries : List ListDirectoryEntry
deriving DecidableEq, Repr

/-- `BridgeFS::lookup_record_by_inode` (via `get_record_by_inode`): resolve
the inode in the current index and `get_parsed` the record; `NotFound` when
the inode is unmapped.  Under the pointer-as-value idealization the parsed
record equals the pointer. -/
def FS.lookup_record_by_inode (s : FS) (inode : INode) :
    Res (INodeResponse Record) :=
  match s.root.lookup_inode inode with
  | none => .err .notFound
  | some record_hash => .ok ⟨record_hash, inode, record_hash⟩

/-- `BridgeFS::lookup_file_by_inode`: variant check on the record. -/
def FS.lookup_file_by_inode (s : FS) (inode : INode) :
    Res (INodeResponse FileRecord) :=
  match s.lookup_record_by_inode inode with
  | .err e => .err e
  | .crash => .crash
  | .ok record =>
    match record.inner with
    | .file f => .ok ⟨f, record.inode, record.source⟩
    | .directory _ => .err .isADirectory

/-- `BridgeFS::lookup_directory_by_inode`: variant check on the record. -/
def FS.lookup_directory_by_inode (s : FS) (inode : INode) :
    Res (INodeResponse DirectoryRecord) :=
  match s.lookup_record_by_inode inode with
  | .err e => .err e
  | .crash => .crash
  | .ok record =>
    match record.inner with
    | .directory d => .ok ⟨d, record.inode, record.source⟩
    | .file _ => .err .notADirectory

/-- `BridgeFS::lookup_record_by_name`: resolve the parent as a directory,
then its child by name. -/
def FS.lookup_record_by_name (s : FS) (parent : INode) (name : Filename) :
    Res (INodeResponse Record) :=
  match s.lookup_directory_by_inode parent with
  | .err e => .err e
  | .crash => .crash
  | .ok p =>
    match p.inner.get name with
    | some inode => s.lookup_record_by_inode inode
    | none => .err .notFound

/-- `BridgeFS::lookup_directory_by_name`. -/
def FS.lookup_directory_by_name (s : FS) (parent : INode) (name : Filename) :
    Res (INodeResponse DirectoryRecord) :=
  match s.lookup_record_by_name parent name with
  | .err e => .err e
  | .crash => .crash
  | .ok record =>
    match record.inner with
    | .directory d => .ok ⟨d, record.inode, record.source⟩
    | .file _ => .err .notADirectory

/-- `BridgeFS::lookup_file_by_name`. -/
def FS.lookup_file_by_name (s : FS) (parent : INode) (name : Filename) :
    Res (INodeResponse FileRecord) :=
  match s.lookup_record_by_name parent name with
  | .err e => .err e
  | .crash => .crash
  | .ok record =>
    match record.inner with
    | .file f => .ok ⟨f, record.inode, record.source⟩
    | .directory _ => .err .isADirectory

/-- `BridgeFS::read_file_data_by_inode`.  The end bound `start + size` is a
`usize` addition and wraps modulo 2^64 (release build semantics); slicing
with a start beyond the end crashes, as the Rust range slice panics. -/
def FS.read_file_data_by_inode (s : FS) (inode : INode) (offset size : Nat) :
    Res ReadFileResponse :=
  match s.lookup_file_by_inode inode with
  | .err e => .err e
  | .crash => .crash
  | .ok file =>
    let data := file.inner.content_hash
    let data_len := data.len
    let start := offset
    let stop := min ((start + size) % USIZE) data_len
    if start ≥ data_len then .ok ⟨file, DataBlock.empty⟩
    else if start ≤ stop then
      .ok ⟨file, ⟨(data.data.drop start).take (stop - start)⟩⟩
    else .crash

/-- `BridgeFS::update_index`: replace the record of `inode` in the
accounting store, update the index mapping, replace the index, advance the
root.  The source `.expect` on a missing inode is modelled as a crash. -/
def FS.update_index (s : FS) (inode : INode) (record : Record) :
    Res Unit × FS :=
  match s.root.lookup_inode inode with
  | none => (.crash, s)
  | some prev_inode_hash =>
    let s1 := s.replace_record prev_inode_hash record
    let index1 := s.root.update_inode inode record
    let s2 := s1.replace_index s.root index1
    (.ok (), { s2 with root := index1 })

/-- `BridgeFS::add_child`: duplicate-name check, store the new record,
allocate its inode, advance the root to the index with the new mapping, then
insert the name into the parent directory and rewrite the parent chain. -/
def FS.add_child (s : FS) (parent_inode : INode) (filename : Filename)
    (record : Record) : Res (Record × INode) × FS :=
  match s.lookup_directory_by_inode parent_inode with
  | .err e => (.err e, s)
  | .crash => (.crash, s)
  | .ok parent =>
    if (lookupA parent.inner.children filename).isSome then
      (.err .alreadyExists, s)
    else
      let prev_index_hash := s.root
      let s1 := s.store_new (.record record)
      let (index1, inode) := prev_index_hash.insert_new_inode record
      let s2 := { s1.replace_index prev_index_hash index1 with root := index1 }
      let parent1 := parent.inner.insert filename inode
      match s2.update_index parent.inode (.directory parent1) with
      | (.ok _, s3) => (.ok (record, inode), s3)
      | (.err e, s3) => (.err e, s3)
      | (.crash, s3) => (.crash, s3)

/-- `BridgeFS::create_file`: store an empty data block, build the file
record, add it as a child of the parent. -/
def FS.create_file (s : FS) (parent : INode) (name : Filename)
    (attributes : CommonAttrs) : Res (INodeResponse FileRecord) × FS :=
  let empty_data := DataBlock.empty
  let s1 := s.store_new (.data empty_data)
  let file_record : FileRecord := ⟨empty_data, empty_data.len, attributes⟩
  match s1.add_child parent name (.file file_record) with
  | (.ok (source, inode), s2) => (.ok ⟨file_record, inode, source⟩, s2)
  | (.err e, s2) => (.err e, s2)
  | (.crash, s2) => (.crash, s2)

/-- `BridgeFS::create_directory`: the directory record starts with no
children and `parent` set to the parent inode. -/
def FS.create_directory (s : FS) (parent : INode) (name : Filename)
    (attributes : CommonAttrs) : Res (INodeResponse DirectoryRecord) × FS :=
  let directory_record : DirectoryRecord := ⟨[], attributes, parent⟩
  match s.add_child parent name (.directory directory_record) with
  | (.ok (source, inode), s2) => (.ok ⟨directory_record, inode, source⟩, s2)
  | (.err e, s2) => (.err e, s2)
  | (.crash, s2) => (.crash, s2)

/-- `Vec::resize(n, 0)`: truncate or zero-extend to length `n`. -/
def resizeL (l : List Nat) (n : Nat) : List Nat :=
  if n ≤ l.length then l.take n else l ++ List.replicate (n - l.length) 0

/-- `BridgeFS::write_to_file`.  `now` models the two `SystemTime::now()`
calls.  The second resize target and the slice end are the `usize` value
`offset + data.len()` and wrap modulo 2^64; the final
`copy_from_slice`-backed splice crashes when the range is invalid. -/
def FS.write_to_file (s : FS) (now : Nat) (inode : INode) (offset : Nat)
    (data : List Nat) : Res Nat × FS :=
  match s.lookup_file_by_inode inode with
  | .err e => (.err e, s)
  | .crash => (.crash, s)
  | .ok original_file =>
    match s.read_file_data_by_inode inode 0 (USIZE - 1) with
    | .err e => (.err e, s)
    | .crash => (.crash, s)
    | .ok existing_data =>
      let d0 := existing_data.datablock.data
      let d1 := if offset > d0.length then resizeL d0 offset else d0
      let stop := (offset + data.length) % USIZE
      let d2 := if stop > d1.length then resizeL d1 stop else d1
      if offset ≤ stop ∧ stop ≤ d2.length ∧ stop - offset = data.length then
        let newblock : DataBlock := ⟨d2.take offset ++ data ++ d2.drop stop⟩
        let s1 := s.replace_data original_file.inner.content_hash newblock
        let newfile : FileRecord :=
          { content_hash := newblock, size := newblock.len,
            common_attrs := { existing_data.file.inner.common_attrs with
                              mtime := now, ctime := now } }
        match s1.update_index inode (.file newfile) with
        | (.ok _, s2) => (.ok data.length, s2)
        | (.err e, s2) => (.err e, s2)
        | (.crash, s2) => (.crash, s2)
      else (.crash, s)

/-- The filename "." (byte 46). -/
def dotName : Filename := ⟨[46]⟩

/-- The filename ".." (bytes 46, 46). -/
def dotDotName : Filename := ⟨[46, 46]⟩

/-- The child-listing loop of `BridgeFS::list_directory_by_inode`: look up
each child record, failing at the first unresolved child. -/
def FS.list_child_entries (s : FS) :
    List (Filename × INode) → Res (List ListDirectoryEntry)
  | [] => .ok []
  | (name, inode) :: rest =>
    match s.lookup_record_by_inode inode with
    | .err e => .err e
    | .crash => .crash
    | .ok record =>
      match s.list_child_entries rest with
      | .err e => .err e
      | .crash => .crash
      | .ok es => .ok (⟨name, record⟩ :: es)

/-- `BridgeFS::list_directory_by_inode`: the real children in map iteration
order, then the synthetic "." entry (the directory itself) and ".." entry
(the record of `parent`, which must resolve in the index). -/
def FS.list_directory_by_inode (s : FS) (inode : INode) :
    Res ListDirectoryResponse :=
  match s.lookup_directory_by_inode inode with
  | .err e => .err e
  | .crash => .crash
  | .ok directory =>
    match s.list_child_entries directory.inner.children with
    | .err e => .err e
    | .crash => .crash
    | .ok entries =>
      let dotEntry : ListDirectoryEntry :=
        ⟨dotName, ⟨.directory directory.inner, directory.inode,
                   directory.source⟩⟩
      match s.lookup_record_by_inode directory.inner.parent with
      | .err e => .err e
      | .crash => .crash
      | .ok parent =>
        .ok ⟨directory, entries ++ [dotEntry, ⟨dotDotName, parent⟩]⟩

/-- `BridgeFS::remove_directory_by_name`: refuse unless the target is an
empty directory, then remove the name from the parent and rewrite the chain.
The directory record is not deleted from the accounting store and its inode
mapping is not removed from the index. -/
def FS.remove_directory_by_name (s : FS) (parent : INode) (name : Filename) :
    Res Unit × FS :=
  match s.lookup_directory_by_name parent name with
  | .err e => (.err e, s)
  | .crash => (.crash, s)
  | .ok target =>
    if target.inner.children ≠ [] then (.err .directoryNotEmpty, s)
    else
      match s.lookup_directory_by_inode parent with
      | .err e => (.err e, s)
      | .crash => (.crash, s)
      | .ok p =>
        let p1 := p.inner.remove name
        s.update_index p.inode (.directory p1)

/-- `BridgeFS::remove_file_by_name`: delete the file record (cascading into
its data block) from the accounting store, remove the name from the parent
and rewrite the chain.  The inode mapping of the removed file stays in the
index. -/
def FS.remove_file_by_name (s : FS) (parent : INode) (name : Filename) :
    Res Unit × FS :=
  match s.lookup_file_by_name parent name with
  | .err e => (.err e, s)
  | .crash => (.crash, s)
  | .ok deleted_file =>
    let s1 := s.delete_record deleted_file.source
    match s1.lookup_directory_by_inode parent with
    | .err e => (.err e, s1)
    | .crash => (.crash, s1)
    | .ok p =>
      let p1 := p.inner.remove name
      s1.update_index p.inode (.directory p1)

/-- `BridgeFS::update_attributes_by_inode`: overwrite the attributes of the
record, keep everything else, rewrite the chain. -/
def FS.update_attributes_by_inode (s : FS) (inode : INode)
    (attributes : CommonAttrs) : Res (INodeResponse Record) × FS :=
  match s.lookup_record_by_inode inode with
  | .err e => (.err e, s)
  | .crash => (.crash, s)
  | .ok record =>
    let inner1 := record.inner.set_attrs attributes
    match s.update_index inode inner1 with
    | (.ok _, s1) => (.ok ⟨inner1, record.inode, record.source⟩, s1)
    | (.err e, s1) => (.err e, s1)
    | (.crash, s1) => (.crash, s1)

/-- `FuseStoreExt::empty_root_dir` from `bridgefs-fuse/src/fuse_store_ext.rs`
followed by `BridgeFS::new`: the root directory is `DirectoryRecord::default()`
(so its `parent` is `INode::default() = 2`), both blobs are added to the raw
content store WITHOUT touching any manifest, the index is
`INodeIndex::new(FUSE_ROOT_ID = 1, root_hash)`, and `BridgeFS::new` starts
from `Manifest::default()` (empty). -/
def freshFS (now : Nat) : FS :=
  let root_directory := DirectoryRecord.mkDefault now
  let root_record : Record := .directory root_directory
  let initial_index := INodeIndex.new ⟨1⟩ root_record
  { root := initial_index,
    store := addBlob (addBlob [] (.record root_record)) (.index initial_index),
    manifest := Manifest.empty }

/-- A call to one of the public engine operations, with its arguments.
`now` arguments model the ambient clock reads. -/
inductive OpCall where
  | lookupRecordByInode (inode : INode)
  | lookupFileByInode (inode : INode)
  | lookupRecordByName (parent : INode) (name : Filename)
  | readFileData (inode : INode) (offset size : Nat)
  | createFile (parent : INode) (name : Filename) (attrs : CommonAttrs)
  | createDirectory (parent : INode) (name : Filename) (attrs : CommonAttrs)
  | writeToFile (now : Nat) (inode : INode) (offset : Nat) (data : List Nat)
  | listDirectory (inode : INode)
  | removeDirectoryByName (parent : INode) (name : Filename)
  | removeFileByName (parent : INode) (name : Filename)
  | updateAttributesByInode (inode : INode) (attrs : CommonAttrs)

/-- Dispatch one engine call on a state.  The payload of a successful call
is reduced to the inode it allocated (`some` exactly for the two create
operations), which is what the sequence-level claims are about. -/
def step (op : OpCall) (s : FS) : Res (Option INode) × FS :=
  match op with
  | .lookupRecordByInode i =>
    match s.lookup_record_by_inode i with
    | .ok _ => (.ok none, s) | .err e => (.err e, s) | .crash => (.crash, s)
  | .lookupFileByInode i =>
    match s.lookup_file_by_inode i with
    | .ok _ => (.ok none, s) | .err e => (.err e, s) | .crash => (.crash, s)
  | .lookupRecordByName p n =>
    match s.lookup_record_by_name p n with
    | .ok _ => (.ok none, s) | .err e => (.err e, s) | .crash => (.crash, s)
  | .readFileData i off sz =>
    match s.read_file_data_by_inode i off sz with
    | .ok _ => (.ok none, s) | .err e => (.err e, s) | .crash => (.crash, s)
  | .createFile p n a =>
    match s.create_file p n a with
    | (.ok r, s1) => (.ok (some r.inode), s1)
    | (.err e, s1) => (.err e, s1)
    | (.crash, s1) => (.crash, s1)
  | .createDirectory p n a =>
    match s.create_directory p n a with
    | (.ok r, s1) => (.ok (some r.inode), s1)
    | (.err e, s1) => (.err e, s1)
    | (.crash, s1) => (.crash, s1)
  | .writeToFile now i off data =>
    match s.write_to_file now i off data with
    | (.ok _, s1) => (.ok none, s1)
    | (.err e, s1) => (.err e, s1)
    | (.crash, s1) => (.crash, s1)
  | .listDirectory i =>
    match s.list_directory_by_inode i with
    | .ok _ => (.ok none, s) | .err e => (.err e, s) | .crash => (.crash, s)
  | .removeDirectoryByName p n =>
    match s.remove_directory_by_name p n with
    | (.ok _, s1) => (.ok none, s1)
    | (.err e, s1) => (.err e, s1)
    | (.crash, s1) => (.crash, s1)
  | .removeFileByName p n =>
    match s.remove_file_by_name p n with
    | (.ok _, s1) => (.ok none, s1)
    | (.err e, s1) => (.err e, s1)
    | (.crash, s1) => (.crash, s1)
  | .updateAttributesByInode i a =>
    match s.update_attributes_by_inode i a with
    | (.ok _, s1) => (.ok none, s1)
    | (.err e, s1) => (.err e, s1)
    | (.crash, s1) => (.crash, s1)

/-- Run a sequence of engine calls, collecting the allocated inodes of the
successful create operations in order. -/
def runSeq : List OpCall → FS → FS × List INode
  | [], s => (s, [])
  | op :: ops, s =>
    let r := step op s
    let rest := runSeq ops r.2
    match r.1 with
    | .ok (some i) => (rest.1, i :: rest.2)
    | _ => (rest.1, rest.2)

/-! ### Concrete scenario states used by the closed theorems -/

/-- `CommonAttrs::default()` at clock 0. -/
def attrs0 : CommonAttrs := CommonAttrs.mkDefault 0

/-- The filename "x" (byte 120). -/
def nameX : Filename := ⟨[120]⟩

/-- The filename "d" (byte 100). -/
def nameD : Filename := ⟨[100]⟩

/-- A fresh filesystem at clock 0. -/
def fs0 : FS := freshFS 0

/-- `fs0` after `create_file(1, "x", default)`: the file gets inode 2. -/
def fsFile : FS := (fs0.create_file ⟨1⟩ nameX attrs0).2

/-- `fsFile` after `remove_file_by_name(1, "x")`. -/
def fsFileRemoved : FS := (fsFile.remove_file_by_name ⟨1⟩ nameX).2

/-- `fs0` after `create_directory(1, "d", default)`: the directory gets
inode 2. -/
def fsDir : FS := (fs0.create_directory ⟨1⟩ nameD attrs0).2

/-- `fsDir` after `remove_directory_by_name(1, "d")`. -/
def fsDirRemoved : FS := (fsDir.remove_directory_by_name ⟨1⟩ nameD).2

/-- `fsFile` after `update_attributes_by_inode(2, default-at-5)`. -/
def fsAttrs : FS := (fsFile.update_attributes_by_inode ⟨2⟩
  (CommonAttrs.mkDefault 5)).2

/-- `fsFile` after the sparse write `write(2, 5, "abc")` at clock 7; the
file content is the 8 bytes 00 00 00 00 00 61 62 63. -/
def fsWritten : FS := (fsFile.write_to_file 7 ⟨2⟩ 5 [97, 98, 99]).2

/-- `fsWritten` after `remove_file_by_name(1, "x")`. -/
def fsWrittenRemoved : FS := (fsWritten.remove_file_by_name ⟨1⟩ nameX).2

/-- A filesystem like `fs0` but whose allocation counter sits at the top
of the `u64` range: `next_inode = 2^64 - 1`.  One more allocation wraps
the counter to 0. -/
def fsCounterTop : FS :=
  { root := ⟨⟨USIZE - 1⟩, [(⟨1⟩, .directory (DirectoryRecord.mkDefault 0))]⟩,
    store := fs0.store,
    manifest := Manifest.empty }

/-! ### Spec-side definitions

The following two definitions transcribe the WORDING of the claims (not the
code); the claim theorems relate the engine to them. -/

/-- Claim wording for `write`: the old content zero-extended to
`max(len, offset, offset + len(data))` with `data` overwritten at positions
`[offset, offset + len(data))`. -/
def writtenContent (old : List Nat) (offset : Nat) (data : List Nat) :
    List Nat :=
  let n := max old.length (max offset (offset + data.length))
  let ext := old ++ List.replicate (n - old.length) 0
  ext.take offset ++ data ++ ext.drop (offset + data.length)

/-- Claim wording for `read_file`: empty bytes when `offset ≥ len`,
otherwise exactly the bytes in `[offset, min(offset + size, len))`. -/
def readSlice (d : List Nat) (offset size : Nat) : List Nat :=
  if offset ≥ d.length then []
  else (d.drop offset).take (min (offset + size) d.length - offset)

namespace Codec

/-!
### Byte-level codec model

The `bincode` standard configuration used in `content_store.rs`:
little-endian, variable-length integer encoding, length-prefixed
collections, enum discriminants as `u32` varints, fixed arrays without a
length prefix.  The varint scheme encodes a value below 251 as a single
byte, otherwise a marker byte 251/252/253 followed by the value as a 2, 4
or 8 byte little-endian integer.  Hash maps are encoded as their length
followed by the key-value pairs in iteration order; the wire structures
below therefore carry association lists whose order stands for the
iteration order of the Rust `HashMap`.  `SystemTime` is encoded (by the
bincode std impl) as the duration since the epoch: seconds and nanoseconds.
-/

/-- `k` little-endian base-256 digits of `n`. -/
def leBytes : Nat → Nat → List Nat
  | 0, _ => []
  | k + 1, n => n % 256 :: leBytes k (n / 256)

/-- Read a little-endian base-256 integer. -/
def fromLe : List Nat → Nat
  | [] => 0
  | b :: bs => b + 256 * fromLe bs

/-- Consume exactly `k` bytes as a little-endian integer. -/
def decFixed (k : Nat) (input : List Nat) : Option (Nat × List Nat) :=
  if k ≤ input.length then some (fromLe (input.take k), input.drop k)
  else none

/-- Varint encoding of an unsigned integer (bincode standard). -/
def encU64 (n : Nat) : List Nat :=
  if n < 251 then [n]
  else if n < 2 ^ 16 then 251 :: leBytes 2 n
  else if n < 2 ^ 32 then 252 :: leBytes 4 n
  else 253 :: leBytes 8 n

/-- Varint decoding of an unsigned integer (bincode standard). -/
def decU64 : List Nat → Option (Nat × List Nat)
  | [] => none
  | b :: rest =>
    if b < 251 then some (b, rest)
    else if b = 251 then decFixed 2 rest
    else if b = 252 then decFixed 4 rest
    else if b = 253 then decFixed 8 rest
    else none

/-- `Vec<u8>`: length prefix, then the raw bytes. -/
def encBytes (l : List Nat) : List Nat := encU64 l.length ++ l

/-- Decode a `Vec<u8>`. -/
def decBytes (input : List Nat) : Option (List Nat × List Nat) :=
  match decU64 input with
  | none => none
  | some (n, r) => if n ≤ r.length then some (r.take n, r.drop n) else none

/-- The wire form of `HashPointer`: the raw 32-byte array, encoded without
a length prefix. -/
structure HashId where
  bytes : List Nat
deriving DecidableEq, Repr

/-- Encode a `HashPointer`: its 32 raw bytes. -/
def encHash (h : HashId) : List Nat := h.bytes

/-- Decode a `HashPointer`: read exactly 32 bytes. -/
def decHash (input : List Nat) : Option (HashId × List Nat) :=
  if 32 ≤ input.length then some (⟨input.take 32⟩, input.drop 32) else none

/-- Encode an `INode` (a `u64` newtype). -/
def encINode (i : INode) : List Nat := encU64 i.val

/-- Decode an `INode`. -/
def decINode (input : List Nat) : Option (INode × List Nat) :=
  match decU64 input with
  | none => none
  | some (n, r) => some (⟨n⟩, r)

/-- Encode a `Filename` (its `Vec<u8>` field). -/
def encFilename (f : Filename) : List Nat := encBytes f.name

/-- Decode a `Filename`. -/
def decFilename (input : List Nat) : Option (Filename × List Nat) :=
  match decBytes input with
  | none => none
  | some (l, r) => some (⟨l⟩, r)

/-- Encode a `DataBlock` (its `Vec<u8>` field). -/
def encDataBlock (d : DataBlock) : List Nat := encBytes d.data

/-- Decode a `DataBlock`. -/
def decDataBlock (input : List Nat) : Option (DataBlock × List Nat) :=
  match decBytes input with
  | none => none
  | some (l, r) => some (⟨l⟩, r)

/-- The wire form of `SystemTime`: seconds and nanoseconds since the
epoch. -/
structure WTime where
  secs : Nat
  nanos : Nat
deriving DecidableEq, Repr

/-- Encode a `SystemTime`. -/
def encTime (t : WTime) : List Nat := encU64 t.secs ++ encU64 t.nanos

/-- Decode a `SystemTime`. -/
def decTime (input : List Nat) : Option (WTime × List Nat) :=
  match decU64 input with
  | none => none
  | some (s, r) =>
    match decU64 r with
    | none => none
    | some (n, r2) => some (⟨s, n⟩, r2)

/-- The wire form of `CommonAttrs`. -/
structure WAttrs where
  perm : Nat
  uid : Nat
  gid : Nat
  atime : WTime
  mtime : WTime
  ctime : WTime
  crtime : WTime
deriving DecidableEq, Repr

/-- Encode `CommonAttrs` field by field in declaration order. -/
def encAttrs (a : WAttrs) : List Nat :=
  encU64 a.perm ++ encU64 a.uid ++ encU64 a.gid ++ encTime a.atime ++
    encTime a.mtime ++ encTime a.ctime ++ encTime a.crtime

/-- Decode `CommonAttrs`. -/
def decAttrs (input : List Nat) : Option (WAttrs × List Nat) :=
  match decU64 input with
  | none => none
  | some (perm, r1) =>
    match decU64 r1 with
    | none => none
    | some (uid, r2) =>
      match decU64 r2 with
      | none => none
      | some (gid, r3) =>
        match decTime r3 with
        | none => none
        | some (at1, r4) =>
          match decTime r4 with
          | none => none
          | some (mt, r5) =>
            match decTime r5 with
            | none => none
            | some (ct, r6) =>
              match decTime r6 with
              | none => none
              | some (crt, r7) =>
                some (⟨perm, uid, gid, at1, mt, ct, crt⟩, r7)

/-- The wire form of `FileRecord`: a true 32-byte content hash. -/
structure WFileRecord where
  content_hash : HashId
  size : Nat
  common_attrs : WAttrs
deriving DecidableEq, Repr

/-- Encode a `FileRecord`. -/
def encFileRecord (f : WFileRecord) : List Nat :=
  encHash f.content_hash ++ encU64 f.size ++ encAttrs f.common_attrs

/-- Decode a `FileRecord`. -/
def decFileRecord (input : List Nat) : Option (WFileRecord × List Nat) :=
  match decHash input with
  | none => none
  | some (h, r1) =>
    match decU64 r1 with
    | none => none
    | some (sz, r2) =>
      match decAttrs r2 with
      | none => none
      | some (a, r3) => some (⟨h, sz, a⟩, r3)

/-- Decode `n` consecutive elements. -/
def decList {α : Type} (dec : List Nat → Option (α × List Nat)) :
    Nat → List Nat → Option (List α × List Nat)
  | 0, input => some ([], input)
  | n + 1, input =>
    match dec input with
    | none => none
    | some (a, r) =>
      match decList dec n r with
      | none => none
      | some (as1, r2) => some (a :: as1, r2)

/-- Encode one `children` entry: filename then inode. -/
def encChild (p : Filename × INode) : List Nat :=
  encFilename p.1 ++ encINode p.2

/-- Decode one `children` entry. -/
def decChild (input : List Nat) : Option ((Filename × INode) × List Nat) :=
  match decFilename input with
  | none => none
  | some (f, r1) =>
    match decINode r1 with
    | none => none
    | some (i, r2) => some ((f, i), r2)

/-- Encode the `children` hash map: length, then entries in iteration
order. -/
def encChildren (l : List (Filename × INode)) : List Nat :=
  encU64 l.length ++ (l.map encChild).flatten

/-- Decode the `children` hash map. -/
def decChildren (input : List Nat) :
    Option (List (Filename × INode) × List Nat) :=
  match decU64 input with
  | none => none
  | some (n, r) => decList decChild n r

/-- The wire form of `DirectoryRecord`. -/
structure WDirectoryRecord where
  children : List (Filename × INode)
  common_attrs : WAttrs
  parent : INode
deriving DecidableEq, Repr

/-- Encode a `DirectoryRecord`. -/
def encDirectoryRecord (d : WDirectoryRecord) : List Nat :=
  encChildren d.children ++ encAttrs d.common_attrs ++ encINode d.parent

/-- Decode a `DirectoryRecord`. -/
def decDirectoryRecord (input : List Nat) :
    Option (WDirectoryRecord × List Nat) :=
  match decChildren input with
  | none => none
  | some (c, r1) =>
    match decAttrs r1 with
    | none => none
    | some (a, r2) =>
      match decINode r2 with
      | none => none
      | some (p, r3) => some (⟨c, a, p⟩, r3)

/-- The wire form of `Record`. -/
inductive WRecord where
  | file : WFileRecord → WRecord
  | directory : WDirectoryRecord → WRecord
deriving DecidableEq, Repr

/-- Encode a `Record`: the variant discriminant as a `u32` varint, then the
payload. -/
def encRecord : WRecord → List Nat
  | .file f => encU64 0 ++ encFileRecord f
  | .directory d => encU64 1 ++ encDirectoryRecord d

/-- Decode a `Record`. -/
def decRecord (input : List Nat) : Option (WRecord × List Nat) :=
  match decU64 input with
  | none => none
  | some (tag, r) =>
    match tag with
    | 0 =>
      match decFileRecord r with
      | none => none
      | some (f, r2) => some (.file f, r2)
    | 1 =>
      match decDirectoryRecord r with
      | none => none
      | some (d, r2) => some (.directory d, r2)
    | _ => none

/-- Encode one `inode_mapping` entry: inode then record hash. -/
def encMapping (p : INode × HashId) : List Nat :=
  encINode p.1 ++ encHash p.2

/-- Decode one `inode_mapping` entry. -/
def decMapping (input : List Nat) : Option ((INode × HashId) × List Nat) :=
  match decINode input with
  | none => none
  | some (i, r1) =>
    match decHash r1 with
    | none => none
    | some (h, r2) => some ((i, h), r2)

/-- The wire form of `INodeIndex`. -/
structure WINodeIndex where
  next_inode : INode
  inode_mapping : List (INode × HashId)
deriving DecidableEq, Repr

/-- Encode an `INodeIndex`: the counter, then the map. -/
def encIndex (x : WINodeIndex) : List Nat :=
  encINode x.next_inode ++
    (encU64 x.inode_mapping.length ++ (x.inode_mapping.map encMapping).flatten)

/-- Decode an `INodeIndex`. -/
def decIndex (input : List Nat) : Option (WINodeIndex × List Nat) :=
  match decINode input with
  | none => none
  | some (ni, r1) =>
    match decU64 r1 with
    | none => none
    | some (n, r2) =>
      match decList decMapping n r2 with
      | none => none
      | some (m, r3) => some (⟨ni, m⟩, r3)

/-! ### Well-formedness of wire values

The bounds every value of the corresponding Rust type satisfies by typing:
integer fields fit in a `u64`, collection lengths fit in a `usize`, a hash
is exactly 32 bytes. -/

/-- A wire hash is well formed when it has exactly 32 bytes. -/
def WfHash (h : HashId) : Prop := h.bytes.length = 32

/-- A wire inode is well formed when its value fits in a `u64`. -/
def WfINode (i : INode) : Prop := i.val < 2 ^ 64

/-- A wire filename is well formed when its length fits in a `usize`. -/
def WfFilename (f : Filename) : Prop := f.name.length < 2 ^ 64

/-- A wire data block is well formed when its length fits in a `usize`. -/
def WfDataBlock (d : DataBlock) : Prop := d.data.length < 2 ^ 64

/-- A wire time is well formed when both components fit in a `u64`. -/
def WfTime (t : WTime) : Prop := t.secs < 2 ^ 64 ∧ t.nanos < 2 ^ 64

/-- Well-formed attributes. -/
def WfAttrs (a : WAttrs) : Prop :=
  a.perm < 2 ^ 64 ∧ a.uid < 2 ^ 64 ∧ a.gid < 2 ^ 64 ∧ WfTime a.atime ∧
    WfTime a.mtime ∧ WfTime a.ctime ∧ WfTime a.crtime

/-- A well-formed wire file record. -/
def WfFileRecord (f : WFileRecord) : Prop :=
  WfHash f.content_hash ∧ f.size < 2 ^ 64 ∧ WfAttrs f.common_attrs

/-- A well-formed wire directory record. -/
def WfDirectoryRecord (d : WDirectoryRecord) : Prop :=
  d.children.length < 2 ^ 64 ∧
    (∀ p ∈ d.children, WfFilename p.1 ∧ WfINode p.2) ∧
    WfAttrs d.common_attrs ∧ WfINode d.parent

/-- A well-formed wire record. -/
def WfRecord : WRecord → Prop
  | .file f => WfFileRecord f
  | .directory d => WfDirectoryRecord d

/-- A well-formed wire inode index. -/
def WfIndex (x : WINodeIndex) : Prop :=
  WfINode x.next_inode ∧ x.inode_mapping.length < 2 ^ 64 ∧
    ∀ p ∈ x.inode_mapping, WfINode p.1 ∧ WfHash p.2

instance (h : HashId) : Decidable (WfHash h) := by
  unfold WfHash
  infer_instance

instance (i : INode) : Decidable (WfINode i) := by
  unfold WfINode
  infer_instance

instance (f : Filename) : Decidable (WfFilename f) := by
  unfold WfFilename
  infer_instance

instance (d : DataBlock) : Decidable (WfDataBlock d) := by
  unfold WfDataBlock
  infer_instance

instance (t : WTime) : Decidable (WfTime t) := by
  unfold WfTime
  infer_instance

instance (a : WAttrs) : Decidable (WfAttrs a) := by
  unfold WfAttrs
  infer_instance

instance (f : WFileRecord) : Decidable (WfFileRecord f) := by
  unfold WfFileRecord
  infer_instance

instance (d : WDirectoryRecord) : Decidable (WfDirectoryRecord d) := by
  unfold WfDirectoryRecord
  infer_instance

instance : (r : WRecord) → Decidable (WfRecord r)
  | .file f => by
    unfold WfRecord
    infer_instance
  | .directory d => by
    unfold WfRecord
    infer_instance

instance (x : WINodeIndex) : Decidable (WfIndex x) := by
  unfold WfIndex
  infer_instance

/-- Rust `HashMap` equality on `children` association lists: same length
and every entry of the first is mapped identically by the second.  For
lists with distinct keys this is exactly map equality. -/
def childrenEq (l1 l2 : List (Filename × INode)) : Prop :=
  l1.length = l2.length ∧ ∀ p ∈ l1, lookupA l2 p.1 = some p.2

instance (l1 l2 : List (Filename × INode)) : Decidable (childrenEq l1 l2) := by
  unfold childrenEq
  infer_instance

end Codec

/-!
### Byte-level blob store

`InMemoryContentStore` from `bridgefs-core/src/content_store.rs`.  The
BLAKE3 hash is idealized as an injective function of the content; since
only injectivity and determinism of the hash are relevant to the store
semantics, the model uses the content itself as its hash value. -/

/-- The idealized collision-free content hash. -/
def hashBytes (content : List Nat) : List Nat := content

/-- `InMemoryContentStore`: a map from hash to stored bytes. -/
structure InMemoryContentStore where
  store : List (List Nat × List Nat)
deriving DecidableEq, Repr

/-- `InMemoryContentStore::add_content`: hash the content and insert;
returns the hash. -/
def InMemoryContentStore.add_content (s : InMemoryContentStore)
    (content : List Nat) : InMemoryContentStore × List Nat :=
  let hash := hashBytes content
  (⟨insertA s.store hash content⟩, hash)

/-- `InMemoryContentStore::get_content`: `self.store.get(hash).cloned()
.unwrap_or_default()` — the stored bytes when present, and the EMPTY byte
vector (not an error) when the hash is absent. -/
def InMemoryContentStore.get_content (s : InMemoryContentStore)
    (hash : List Nat) : List Nat :=
  (lookupA s.store hash).getD []

/-!
## Theorems
-/

/-- Claim C1: refuted by the code.  After a successful
`remove_file_by_name(1, "x")` the removed inode 2 is still mapped in the
current index, so `lookup_record_by_inode(2)` succeeds with the stale file
record instead of failing with `NotFound`; after a successful
`remove_directory_by_name(1, "d")` the removed inode is likewise still
mapped and the directory record is NOT deleted from the accounting store
(its reference count is still 1). -/
theorem remove_does_not_purge_inode_mapping :
    (fsFile.remove_file_by_name ⟨1⟩ nameX).1 = .ok () ∧
    fsFileRemoved.lookup_record_by_inode ⟨2⟩ =
      .ok ⟨.file ⟨⟨[]⟩, 0, attrs0⟩, ⟨2⟩, .file ⟨⟨[]⟩, 0, attrs0⟩⟩ ∧
    (fsDir.remove_directory_by_name ⟨1⟩ nameD).1 = .ok () ∧
    fsDirRemoved.lookup_record_by_inode ⟨2⟩ =
      .ok ⟨.directory ⟨[], attrs0, ⟨1⟩⟩, ⟨2⟩, .directory ⟨[], attrs0, ⟨1⟩⟩⟩ ∧
    fsDirRemoved.manifest (.record (.directory ⟨[], attrs0, ⟨1⟩⟩)) = 1 := by
  decide

/-- Claim C2: refuted by the code.  After `create_file(1, "x")` the empty
data block has reference count 1 and is the `content_hash` of the live file
record; after `update_attributes_by_inode(2, attrs)` the live file record
still has that `content_hash`, yet its count has dropped to 0, because
`Record::delete_references` cascades on the OLD record ignoring the
replacement value.  Moreover directly after initialization the manifest is
empty although the root index hash is held by the root reference and the
root record hash is mapped in the index. -/
theorem refcount_drops_for_live_content_hash :
    fsFile.manifest (.data ⟨[]⟩) = 1 ∧
    fsAttrs.lookup_file_by_inode ⟨2⟩ =
      .ok ⟨⟨⟨[]⟩, 0, CommonAttrs.mkDefault 5⟩, ⟨2⟩,
           .file ⟨⟨[]⟩, 0, CommonAttrs.mkDefault 5⟩⟩ ∧
    fsAttrs.manifest (.data ⟨[]⟩) = 0 ∧
    fs0.manifest (.index fs0.root) = 0 ∧
    fs0.manifest (.record (.directory (DirectoryRecord.mkDefault 0))) = 0 := by
  decide

/-- Claim C3: refuted by the code.  On a freshly initialized filesystem
`list_directory(1)` fails with `NotFound` instead of returning the two
synthetic entries, because the root directory is built with
`DirectoryRecord::default()`, whose `parent` is `INode::default() = 2`, an
inode that is unmapped in the fresh index — the root directory does not
have itself as parent. -/
theorem fresh_root_listing_fails :
    fs0.list_directory_by_inode ⟨1⟩ = .err .notFound ∧
    (DirectoryRecord.mkDefault 0).parent = ⟨2⟩ ∧
    fs0.root.lookup_inode ⟨2⟩ = none := by
  decide

/-! ### Helper lemmas about the primitive store operations -/

theorem store_new_root (s : FS) (b : Blob) : (s.store_new b).root = s.root :=
  rfl

theorem delete_record_root (s : FS) (r : Record) :
    (s.delete_record r).root = s.root := by
  cases r <;> rfl

theorem update_index_fst_ne_err (s : FS) (i : INode) (r : Record)
    (e : FileOperationError) : (s.update_index i r).1 ≠ .err e := by
  unfold FS.update_index
  cases s.root.lookup_inode i <;> simp

theorem update_index_root_next (s : FS) (i : INode) (r : Record) :
    (s.update_index i r).2.root.next_inode = s.root.next_inode := by
  unfold FS.update_index
  cases s.root.lookup_inode i <;> rfl

theorem update_index_pair_ne_err (s : FS) (i : INode) (r : Record)
    (e : FileOperationError) (s2 : FS) :
    FS.update_index s i r ≠ (.err e, s2) := fun h =>
  update_index_fst_ne_err s i r e (congrArg Prod.fst h)

theorem add_child_err_state (s : FS) (p : INode) (f : Filename) (r : Record)
    (e : FileOperationError) :
    (s.add_child p f r).1 = .err e → (s.add_child p f r).2 = s := by
  simp only [FS.add_child]
  repeat' split
  all_goals intro h
  all_goals try rfl
  all_goals try simp at h
  all_goals rename_i heq
  all_goals exact absurd heq (update_index_pair_ne_err _ _ _ _ _)

theorem create_file_err_root (s : FS) (p : INode) (n : Filename)
    (a : CommonAttrs) (e : FileOperationError) :
    (s.create_file p n a).1 = .err e → (s.create_file p n a).2.root = s.root := by
  simp only [FS.create_file]
  repeat' split
  all_goals intro h
  all_goals try simp at h
  all_goals rename_i heq
  all_goals
    have h2 := add_child_err_state _ p n _ _ (congrArg Prod.fst heq)
  all_goals rw [heq] at h2
  all_goals simp at h2 ⊢
  all_goals rw [h2]
  all_goals rfl

theorem create_directory_err_root (s : FS) (p : INode) (n : Filename)
    (a : CommonAttrs) (e : FileOperationError) :
    (s.create_directory p n a).1 = .err e →
      (s.create_directory p n a).2.root = s.root := by
  simp only [FS.create_directory]
  repeat' split
  all_goals intro h
  all_goals try simp at h
  all_goals rename_i heq
  all_goals
    have h2 := add_child_err_state _ p n _ _ (congrArg Prod.fst heq)
  all_goals rw [heq] at h2
  all_goals simp at h2 ⊢
  all_goals rw [h2]

theorem write_err_root (s : FS) (now : Nat) (i : INode) (off : Nat)
    (data : List Nat) (e : FileOperationError) :
    (s.write_to_file now i off data).1 = .err e →
      (s.write_to_file now i off data).2.root = s.root := by
  simp only [FS.write_to_file]
  repeat' split
  all_goals intro h
  all_goals try rfl
  all_goals try simp at h
  all_goals rename_i heq
  all_goals exact absurd heq (update_index_pair_ne_err _ _ _ _ _)

theorem remove_directory_err_root (s : FS) (p : INode) (n : Filename)
    (e : FileOperationError) :
    (s.remove_directory_by_name p n).1 = .err e →
      (s.remove_directory_by_name p n).2.root = s.root := by
  simp only [FS.remove_directory_by_name]
  repeat' split
  all_goals intro h
  all_goals try rfl
  all_goals exact absurd h (update_index_fst_ne_err _ _ _ _)

theorem remove_file_err_root (s : FS) (p : INode) (n : Filename)
    (e : FileOperationError) :
    (s.remove_file_by_name p n).1 = .err e →
      (s.remove_file_by_name p n).2.root = s.root := by
  simp only [FS.remove_file_by_name]
  repeat' split
  all_goals intro h
  all_goals try rfl
  all_goals try exact delete_record_root _ _
  all_goals exact absurd h (update_index_fst_ne_err _ _ _ _)

theorem update_attrs_err_root (s : FS) (i : INode) (a : CommonAttrs)
    (e : FileOperationError) :
    (s.update_attributes_by_inode i a).1 = .err e →
      (s.update_attributes_by_inode i a).2.root = s.root := by
  simp only [FS.update_attributes_by_inode]
  repeat' split
  all_goals intro h
  all_goals try rfl
  all_goals try simp at h
  all_goals rename_i heq
  all_goals exact absurd heq (update_index_pair_ne_err _ _ _ _ _)

/-- Claim C4, confirmed: whenever any engine operation returns an error of
the closed taxonomy, the root reference has not advanced — the index
addressed by the root pointer after the failed call equals its value before
the call. -/
theorem failed_op_preserves_root (op : OpCall) (s : FS)
    (e : FileOperationError) :
    (step op s).1 = .err e → (step op s).2.root = s.root := by
  cases op <;> simp only [step]
  case createFile p n a =>
    split <;> intro h <;> try simp at h
    rename_i e1 s1 heq
    have h2 := create_file_err_root s p n a e1 (congrArg Prod.fst heq)
    rw [heq] at h2
    exact h2
  case createDirectory p n a =>
    split <;> intro h <;> try simp at h
    rename_i e1 s1 heq
    have h2 := create_directory_err_root s p n a e1 (congrArg Prod.fst heq)
    rw [heq] at h2
    exact h2
  case writeToFile now i off data =>
    split <;> intro h <;> try simp at h
    rename_i e1 s1 heq
    have h2 := write_err_root s now i off data e1 (congrArg Prod.fst heq)
    rw [heq] at h2
    exact h2
  case removeDirectoryByName p n =>
    split <;> intro h <;> try simp at h
    rename_i e1 s1 heq
    have h2 := remove_directory_err_root s p n e1 (congrArg Prod.fst heq)
    rw [heq] at h2
    exact h2
  case removeFileByName p n =>
    split <;> intro h <;> try simp at h
    rename_i e1 s1 heq
    have h2 := remove_file_err_root s p n e1 (congrArg Prod.fst heq)
    rw [heq] at h2
    exact h2
  case updateAttributesByInode i a =>
    split <;> intro h <;> try simp at h
    rename_i e1 s1 heq
    have h2 := update_attrs_err_root s i a e1 (congrArg Prod.fst heq)
    rw [heq] at h2
    exact h2
  all_goals split <;> simp

/-! ### Helper lemmas for inode allocation -/

theorem update_index_eq_next (s : FS) (i : INode) (r : Record)
    (q : Res Unit × FS) (heq : FS.update_index s i r = q) :
    q.2.root.next_inode = s.root.next_inode := by
  rw [← heq]
  exact update_index_root_next s i r

theorem add_child_next_cases (s : FS) (p : INode) (f : Filename)
    (r : Record) :
    (s.add_child p f r).2.root.next_inode.val = s.root.next_inode.val ∨
    (s.add_child p f r).2.root.next_inode.val =
      (s.root.next_inode.val + 1) % USIZE := by
  simp only [FS.add_child, INodeIndex.insert_new_inode]
  repeat' split
  all_goals try exact Or.inl rfl
  all_goals rename_i heq
  all_goals rw [update_index_eq_next _ _ _ _ heq]
  all_goals exact Or.inr rfl

theorem add_child_ok (s : FS) (p : INode) (f : Filename) (r : Record)
    (v : Record × INode) :
    (s.add_child p f r).1 = .ok v →
      v.2 = s.root.next_inode ∧
      (s.add_child p f r).2.root.next_inode.val =
        (s.root.next_inode.val + 1) % USIZE := by
  simp only [FS.add_child, INodeIndex.insert_new_inode]
  repeat' split
  all_goals intro h
  all_goals try simp at h
  rename_i heq
  refine ⟨?_, ?_⟩
  · rw [← h]
  · rw [update_index_eq_next _ _ _ _ heq]
    rfl

theorem create_file_ok (s : FS) (p : INode) (n : Filename) (a : CommonAttrs)
    (r1 : INodeResponse FileRecord) :
    (s.create_file p n a).1 = .ok r1 →
      r1.inode = s.root.next_inode ∧
      (s.create_file p n a).2.root.next_inode.val =
        (s.root.next_inode.val + 1) % USIZE := by
  simp only [FS.create_file]
  repeat' split
  all_goals intro h
  all_goals try simp at h
  rename_i heq
  have h2 := add_child_ok _ p n _ _ (congrArg Prod.fst heq)
  rw [congrArg Prod.snd heq] at h2
  exact ⟨by rw [← h]; exact h2.1, h2.2⟩

theorem create_directory_ok (s : FS) (p : INode) (n : Filename)
    (a : CommonAttrs) (r1 : INodeResponse DirectoryRecord) :
    (s.create_directory p n a).1 = .ok r1 →
      r1.inode = s.root.next_inode ∧
      (s.create_directory p n a).2.root.next_inode.val =
        (s.root.next_inode.val + 1) % USIZE := by
  simp only [FS.create_directory]
  repeat' split
  all_goals intro h
  all_goals try simp at h
  rename_i heq
  have h2 := add_child_ok _ p n _ _ (congrArg Prod.fst heq)
  rw [congrArg Prod.snd heq] at h2
  exact ⟨by rw [← h]; exact h2.1, h2.2⟩

theorem create_file_next_cases (s : FS) (p : INode) (n : Filename)
    (a : CommonAttrs) :
    (s.create_file p n a).2.root.next_inode.val = s.root.next_inode.val ∨
    (s.create_file p n a).2.root.next_inode.val =
      (s.root.next_inode.val + 1) % USIZE := by
  simp only [FS.create_file]
  repeat' split
  all_goals rename_i heq
  all_goals rw [← congrArg (fun q => (q.2).root.next_inode.val) heq]
  all_goals exact add_child_next_cases (s.store_new (.data DataBlock.empty)) p n _

theorem create_directory_next_cases (s : FS) (p : INode) (n : Filename)
    (a : CommonAttrs) :
    (s.create_directory p n a).2.root.next_inode.val =
      s.root.next_inode.val ∨
    (s.create_directory p n a).2.root.next_inode.val =
      (s.root.next_inode.val + 1) % USIZE := by
  simp only [FS.create_directory]
  repeat' split
  all_goals rename_i heq
  all_goals rw [← congrArg (fun q => (q.2).root.next_inode.val) heq]
  all_goals exact add_child_next_cases _ _ _ _

theorem write_next_eq (s : FS) (now : Nat) (i : INode) (off : Nat)
    (data : List Nat) :
    (s.write_to_file now i off data).2.root.next_inode = s.root.next_inode := by
  simp only [FS.write_to_file]
  repeat' split
  all_goals try rfl
  all_goals rename_i heq
  all_goals exact update_index_eq_next _ _ _ _ heq

theorem remove_directory_next_eq (s : FS) (p : INode) (n : Filename) :
    (s.remove_directory_by_name p n).2.root.next_inode = s.root.next_inode := by
  simp only [FS.remove_directory_by_name]
  repeat' split
  all_goals try rfl
  all_goals exact update_index_root_next _ _ _

theorem remove_file_next_eq (s : FS) (p : INode) (n : Filename) :
    (s.remove_file_by_name p n).2.root.next_inode = s.root.next_inode := by
  simp only [FS.remove_file_by_name]
  repeat' split
  all_goals try rfl
  all_goals try exact congrArg INodeIndex.next_inode (delete_record_root _ _)
  all_goals
    rw [update_index_root_next _ _ _]
    exact congrArg INodeIndex.next_inode (delete_record_root _ _)

theorem update_attrs_next_eq (s : FS) (i : INode) (a : CommonAttrs) :
    (s.update_attributes_by_inode i a).2.root.next_inode =
      s.root.next_inode := by
  simp only [FS.update_attributes_by_inode]
  repeat' split
  all_goals try rfl
  all_goals rename_i heq
  all_goals exact update_index_eq_next _ _ _ _ heq

theorem step_next_cases (op : OpCall) (s : FS) :
    (step op s).2.root.next_inode.val = s.root.next_inode.val ∨
    (step op s).2.root.next_inode.val =
      (s.root.next_inode.val + 1) % USIZE := by
  cases op <;> simp only [step]
  case createFile p n a =>
    split <;> rename_i heq <;>
      rw [← congrArg (fun q => (q.2).root.next_inode.val) heq] <;>
      exact create_file_next_cases _ _ _ _
  case createDirectory p n a =>
    split <;> rename_i heq <;>
      rw [← congrArg (fun q => (q.2).root.next_inode.val) heq] <;>
      exact create_directory_next_cases _ _ _ _
  case writeToFile now i off data =>
    split <;> rename_i heq <;>
      rw [← congrArg (fun q => (q.2).root.next_inode.val) heq] <;>
      exact Or.inl (congrArg INode.val (write_next_eq _ _ _ _ _))
  case removeDirectoryByName p n =>
    split <;> rename_i heq <;>
      rw [← congrArg (fun q => (q.2).root.next_inode.val) heq] <;>
      exact Or.inl (congrArg INode.val (remove_directory_next_eq _ _ _))
  case removeFileByName p n =>
    split <;> rename_i heq <;>
      rw [← congrArg (fun q => (q.2).root.next_inode.val) heq] <;>
      exact Or.inl (congrArg INode.val (remove_file_next_eq _ _ _))
  case updateAttributesByInode i a =>
    split <;> rename_i heq <;>
      rw [← congrArg (fun q => (q.2).root.next_inode.val) heq] <;>
      exact Or.inl (congrArg INode.val (update_attrs_next_eq _ _ _))
  all_goals split <;> exact Or.inl rfl

theorem step_next_le (op : OpCall) (s : FS) :
    (step op s).2.root.next_inode.val ≤ s.root.next_inode.val + 1 := by
  rcases step_next_cases op s with h | h <;> rw [h]
  · exact Nat.le_succ _
  · exact Nat.mod_le _ _

theorem step_next_no_wrap (op : OpCall) (s : FS)
    (h : s.root.next_inode.val + 1 < USIZE) :
    s.root.next_inode.val ≤ (step op s).2.root.next_inode.val := by
  rcases step_next_cases op s with h2 | h2 <;> rw [h2]
  rw [Nat.mod_eq_of_lt h]
  exact Nat.le_succ _

theorem step_alloc (op : OpCall) (s : FS) (i : INode) :
    (step op s).1 = .ok (some i) →
      i = s.root.next_inode ∧
      (step op s).2.root.next_inode.val =
        (s.root.next_inode.val + 1) % USIZE := by
  cases op <;> simp only [step]
  case createFile p n a =>
    split <;> rename_i heq <;> intro h
    · have h2 := create_file_ok _ _ _ _ _ (congrArg Prod.fst heq)
      rw [congrArg Prod.snd heq] at h2
      simp at h
      exact ⟨h ▸ h2.1, h2.2⟩
    · exact absurd h (by simp)
    · exact absurd h (by simp)
  case createDirectory p n a =>
    split <;> rename_i heq <;> intro h
    · have h2 := create_directory_ok _ _ _ _ _ (congrArg Prod.fst heq)
      rw [congrArg Prod.snd heq] at h2
      simp at h
      exact ⟨h ▸ h2.1, h2.2⟩
    · exact absurd h (by simp)
    · exact absurd h (by simp)
  all_goals split <;> intro h <;> simp at h

theorem runSeq_fst (op : OpCall) (ops : List OpCall) (s : FS) :
    (runSeq (op :: ops) s).1 = (runSeq ops (step op s).2).1 := by
  simp only [runSeq]
  cases (step op s).1 with
  | ok v => cases v <;> rfl
  | err e => rfl
  | crash => rfl

theorem runSeq_allocs (ops : List OpCall) (s : FS)
    (H : s.root.next_inode.val + ops.length ≤ USIZE) :
    (∀ a ∈ (runSeq ops s).2, s.root.next_inode.val ≤ a.val ∧
      a.val < s.root.next_inode.val + ops.length) ∧
    List.Chain' (fun a b : INode => a.val < b.val) (runSeq ops s).2 := by
  induction ops generalizing s with
  | nil => exact ⟨by simp [runSeq], by simp [runSeq]⟩
  | cons op ops ih =>
    simp only [List.length_cons] at H ⊢
    simp only [runSeq]
    by_cases hL : ops = []
    · subst hL
      cases hr : (step op s).1 with
      | ok v =>
        cases v with
        | none => exact ⟨by simp [runSeq], by simp [runSeq]⟩
        | some i =>
          obtain ⟨hi, _⟩ := step_alloc op s i hr
          refine ⟨?_, by simp [runSeq]⟩
          intro a ha
          simp only [runSeq, List.mem_singleton] at ha
          subst ha
          rw [hi]
          omega
      | err e => exact ⟨by simp [runSeq], by simp [runSeq]⟩
      | crash => exact ⟨by simp [runSeq], by simp [runSeq]⟩
    · have hlen : 1 ≤ ops.length := by
        cases ops with
        | nil => exact absurd rfl hL
        | cons b l => simp
      have hv1 : s.root.next_inode.val + 1 < USIZE := by omega
      cases hr : (step op s).1 with
      | ok v =>
        cases v with
        | none =>
          have hle := step_next_le op s
          have hge := step_next_no_wrap op s hv1
          obtain ⟨ih1, ih2⟩ := ih (step op s).2 (by omega)
          refine ⟨?_, ih2⟩
          intro a ha
          have hb := ih1 a ha
          omega
        | some i =>
          obtain ⟨hi, hnext⟩ := step_alloc op s i hr
          rw [Nat.mod_eq_of_lt hv1] at hnext
          obtain ⟨ih1, ih2⟩ := ih (step op s).2 (by omega)
          refine ⟨?_, ?_⟩
          · intro a ha
            rcases List.mem_cons.mp ha with h | h
            · subst h
              rw [hi]
              omega
            · have hb := ih1 a h
              omega
          · rw [List.chain'_cons']
            refine ⟨?_, ih2⟩
            intro b hb
            have hbm : b ∈ (runSeq ops (step op s).2).2 :=
              List.mem_of_mem_head? hb
            have hb2 := (ih1 b hbm).1
            rw [hi]
            omega
      | err e =>
        have hle := step_next_le op s
        have hge := step_next_no_wrap op s hv1
        obtain ⟨ih1, ih2⟩ := ih (step op s).2 (by omega)
        refine ⟨?_, ih2⟩
        intro a ha
        have hb := ih1 a ha
        omega
      | crash =>
        have hle := step_next_le op s
        have hge := step_next_no_wrap op s hv1
        obtain ⟨ih1, ih2⟩ := ih (step op s).2 (by omega)
        refine ⟨?_, ih2⟩
        intro a ha
        have hb := ih1 a ha
        omega

/-- Counterexample to claim C9 as stated: the `u64` allocation counter
wraps.  From a state whose counter sits at `u64::MAX = 2^64 - 1`, two
successful creates allocate inode `2^64 - 1` and then — the counter
having wrapped to 0 — inode 0, so the allocated inodes are NOT strictly
increasing (and continuing from there reallocates the low inode numbers,
including the root inode 1, i.e. reuse). -/
theorem inode_counter_wraps :
    (runSeq [.createFile ⟨1⟩ nameX attrs0, .createFile ⟨1⟩ nameD attrs0]
      fsCounterTop).2 = [⟨USIZE - 1⟩, ⟨0⟩] ∧
    ¬ List.Chain' (fun a b : INode => a.val < b.val)
      (runSeq [.createFile ⟨1⟩ nameX attrs0, .createFile ⟨1⟩ nameD attrs0]
        fsCounterTop).2 := by
  have h1 : (runSeq [.createFile ⟨1⟩ nameX attrs0,
      .createFile ⟨1⟩ nameD attrs0] fsCounterTop).2 =
      [⟨USIZE - 1⟩, ⟨0⟩] := by decide
  refine ⟨h1, ?_⟩
  rw [h1, List.chain'_cons]
  rintro ⟨hlt, -⟩
  exact Nat.not_lt_zero _ hlt

/-- Claim C9, amended with a no-wrap bound (the `INodeIndex` itself is
modelled from the spec, its callers are the source): a freshly
constructed index has `next_inode` 2, and for every state and every
operation sequence short enough that the 64-bit counter cannot wrap
(starting counter + number of operations at most 2^64; from a fresh
index that allows any run of fewer than 2^64 - 2 operations), the inodes
allocated by the create operations are strictly increasing — hence never
reused — and all at least the starting `next_inode`. -/
theorem inode_monotonicity :
    (∀ (ri : INode) (rh : Record), (INodeIndex.new ri rh).next_inode = ⟨2⟩) ∧
    fs0.root.next_inode = ⟨2⟩ ∧
    (∀ (ops : List OpCall) (s : FS),
      s.root.next_inode.val + ops.length ≤ USIZE →
      List.Chain' (fun a b : INode => a.val < b.val) (runSeq ops s).2 ∧
      ∀ a ∈ (runSeq ops s).2, s.root.next_inode.val ≤ a.val) :=
  ⟨fun _ _ => rfl, rfl,
   fun ops s H => ⟨(runSeq_allocs ops s H).2,
     fun a ha => ((runSeq_allocs ops s H).1 a ha).1⟩⟩

/-- Witness for claim C9: creating "x" then "d" on a fresh filesystem
(counter 2, run length 2, far below the wrap bound) allocates inodes 2
and 3 in order; the chain is strictly increasing and inode 2 is an
allocation bounded below by the starting counter. -/
theorem inode_monotonicity_witness :
    fs0.root.next_inode.val +
      ([.createFile ⟨1⟩ nameX attrs0, .createFile ⟨1⟩ nameD attrs0] :
        List OpCall).length ≤ USIZE ∧
    (runSeq [.createFile ⟨1⟩ nameX attrs0, .createFile ⟨1⟩ nameD attrs0]
      fs0).2 = [⟨2⟩, ⟨3⟩] ∧
    List.Chain' (fun a b : INode => a.val < b.val)
      (runSeq [.createFile ⟨1⟩ nameX attrs0, .createFile ⟨1⟩ nameD attrs0]
        fs0).2 ∧
    (⟨2⟩ : INode) ∈
      (runSeq [.createFile ⟨1⟩ nameX attrs0, .createFile ⟨1⟩ nameD attrs0]
        fs0).2 ∧
    fs0.root.next_inode.val ≤ (2 : Nat) :=
  ⟨by decide, by decide,
   (inode_monotonicity.2.2
     [.createFile ⟨1⟩ nameX attrs0, .createFile ⟨1⟩ nameD attrs0] fs0
     (by decide)).1,
   by decide,
   (inode_monotonicity.2.2
     [.createFile ⟨1⟩ nameX attrs0, .createFile ⟨1⟩ nameD attrs0] fs0
     (by decide)).2 ⟨2⟩ (by decide)⟩

/-- Witness for claim C4: a duplicate `create_file(1, "x")` on `fsFile`
fails with `AlreadyExists` (even though it stored a fresh empty data block
first), and the root is unchanged. -/
theorem failed_op_preserves_root_witness :
    (step (.createFile ⟨1⟩ nameX attrs0) fsFile).1 =
      .err .alreadyExists ∧
    (step (.createFile ⟨1⟩ nameX attrs0) fsFile).2.root = fsFile.root :=
  ⟨by decide, failed_op_preserves_root _ _ .alreadyExists (by decide)⟩

/-! ### Helper lemmas for the read and write semantics -/

theorem lookupA_insertA_self {κ α : Type} [DecidableEq κ]
    (l : List (κ × α)) (k : κ) (v : α) :
    lookupA (insertA l k v) k = some v := by
  induction l with
  | nil => simp [insertA, lookupA]
  | cons p rest ih =>
    by_cases h : k = p.1
    · simp [insertA, lookupA, h]
    · simp only [insertA, lookupA]
      rw [if_neg h, lookupA, if_neg h]
      exact ih

theorem resizeL_length (l : List Nat) (n : Nat) : (resizeL l n).length = n := by
  unfold resizeL
  split
  · rename_i h
    simp [Nat.min_eq_left h]
  · rename_i h
    simp
    omega

theorem lookup_file_ok_inv (s : FS) (i : INode)
    (file : INodeResponse FileRecord) :
    s.lookup_file_by_inode i = .ok file →
      s.root.lookup_inode i = some (.file file.inner) ∧
      file.source = .file file.inner ∧ file.inode = i := by
  unfold FS.lookup_file_by_inode FS.lookup_record_by_inode
  cases h : s.root.lookup_inode i with
  | none => simp
  | some r =>
    cases r with
    | file f =>
      intro h2
      simp only [Res.ok.injEq] at h2
      rw [← h2]
      exact ⟨rfl, rfl, rfl⟩
    | directory d => simp

theorem read_all (s : FS) (inode : INode) (file : INodeResponse FileRecord)
    (hf : s.lookup_file_by_inode inode = .ok file)
    (hlen : file.inner.content_hash.data.length < USIZE) :
    s.read_file_data_by_inode inode 0 (USIZE - 1) =
      .ok ⟨file, ⟨file.inner.content_hash.data⟩⟩ := by
  have hpos : 0 < USIZE := by norm_num [USIZE]
  have hmod : (0 + (USIZE - 1)) % USIZE = USIZE - 1 := by
    rw [Nat.zero_add]
    exact Nat.mod_eq_of_lt (by omega)
  unfold FS.read_file_data_by_inode
  rw [hf]
  simp only [DataBlock.len, hmod]
  split
  · rename_i h1
    have hnil : file.inner.content_hash.data = [] :=
      List.eq_nil_of_length_eq_zero (by omega)
    rw [DataBlock.empty, hnil]
  · rename_i h1
    rw [if_pos (by omega)]
    have hstop : min (USIZE - 1) file.inner.content_hash.data.length =
        file.inner.content_hash.data.length := by omega
    rw [hstop]
    simp

theorem resize_chain_eq (old : List Nat) (offset k : Nat) :
    (if offset + k >
        (if offset > old.length then resizeL old offset else old).length
     then resizeL (if offset > old.length then resizeL old offset else old)
       (offset + k)
     else (if offset > old.length then resizeL old offset else old)) =
    old ++
      List.replicate (max old.length (max offset (offset + k)) - old.length)
        0 := by
  by_cases h1 : offset > old.length
  · rw [if_pos h1]
    have hd1 : resizeL old offset = old ++ List.replicate (offset - old.length) 0 := by
      unfold resizeL
      rw [if_neg (by omega)]
    rw [hd1]
    have hlen1 : (old ++ List.replicate (offset - old.length) 0).length = offset := by
      simp
      omega
    by_cases h2 : k > 0
    · rw [if_pos (by omega)]
      unfold resizeL
      rw [if_neg (by omega)]
      rw [List.append_assoc, hlen1]
      have hmax : max old.length (max offset (offset + k)) - old.length =
          (offset - old.length) + (offset + k - offset) := by omega
      rw [hmax, List.replicate_add]
    · have hk : k = 0 := by omega
      subst hk
      rw [if_neg (by omega)]
      have hmax : max old.length (max offset (offset + 0)) - old.length =
          offset - old.length := by omega
      rw [hmax]
  · rw [if_neg h1]
    by_cases h2 : offset + k > old.length
    · rw [if_pos h2]
      unfold resizeL
      rw [if_neg (by omega)]
      have hmax : max old.length (max offset (offset + k)) - old.length =
          offset + k - old.length := by omega
      rw [hmax]
    · rw [if_neg h2]
      have hmax : max old.length (max offset (offset + k)) - old.length = 0 := by
        omega
      rw [hmax]
      simp

theorem replace_data_root (s : FS) (p v : DataBlock) :
    (s.replace_data p v).root = s.root := rfl

/-- Claim C5, amended with the no-overflow side condition: for a file inode
with current content `old`, provided `offset + len(data)` does not overflow
`usize`, `write_to_file` returns `len(data)`, and the file record
afterwards holds exactly the old content zero-extended to
`max(len, offset, offset + len(data))` with `data` overwritten at
`[offset, offset + len(data))`, its `size` being that new length. -/
theorem write_semantics (s : FS) (now : Nat) (inode : INode) (offset : Nat)
    (data : List Nat) (file : INodeResponse FileRecord)
    (hf : s.lookup_file_by_inode inode = .ok file)
    (hlen : file.inner.content_hash.data.length < USIZE)
    (hov : offset + data.length < USIZE) :
    (s.write_to_file now inode offset data).1 = .ok data.length ∧
    ∃ resp : INodeResponse FileRecord,
      (s.write_to_file now inode offset data).2.lookup_file_by_inode inode =
        .ok resp ∧
      resp.inner.content_hash.data =
        writtenContent file.inner.content_hash.data offset data ∧
      resp.inner.size =
        (writtenContent file.inner.content_hash.data offset data).length := by
  have hinv := lookup_file_ok_inv s inode file hf
  have hread := read_all s inode file hf hlen
  have hmod : (offset + data.length) % USIZE = offset + data.length :=
    Nat.mod_eq_of_lt hov
  have hchain := resize_chain_eq file.inner.content_hash.data offset data.length
  set old := file.inner.content_hash.data with hold
  set n := max old.length (max offset (offset + data.length)) with hn
  set ext := old ++ List.replicate (n - old.length) 0 with hext
  have hextlen : ext.length = n := by
    rw [hext]
    simp
    omega
  have hcond : offset ≤ offset + data.length ∧
      offset + data.length ≤ ext.length ∧
      offset + data.length - offset = data.length := by
    refine ⟨by omega, ?_, by omega⟩
    rw [hextlen]
    omega
  have hwc : writtenContent old offset data =
      ext.take offset ++ data ++ ext.drop (offset + data.length) := rfl
  have hkey : (s.write_to_file now inode offset data).1 = .ok data.length ∧
      (s.write_to_file now inode offset data).2.root =
        s.root.update_inode inode
          (.file ⟨⟨ext.take offset ++ data ++ ext.drop (offset + data.length)⟩,
            (ext.take offset ++ data ++ ext.drop (offset + data.length)).length,
            { file.inner.common_attrs with mtime := now, ctime := now }⟩) := by
    unfold FS.write_to_file
    rw [hf, hread]
    simp only [hmod, hchain, ← hext, ← hold]
    rw [if_pos hcond]
    simp only [FS.update_index, replace_data_root]
    rw [hinv.1]
    exact ⟨rfl, rfl⟩
  refine ⟨hkey.1, ⟨⟨⟨ext.take offset ++ data ++
      ext.drop (offset + data.length)⟩,
      (ext.take offset ++ data ++ ext.drop (offset + data.length)).length,
      { file.inner.common_attrs with mtime := now, ctime := now }⟩, inode,
      .file ⟨⟨ext.take offset ++ data ++ ext.drop (offset + data.length)⟩,
      (ext.take offset ++ data ++ ext.drop (offset + data.length)).length,
      { file.inner.common_attrs with mtime := now, ctime := now }⟩⟩,
      ?_, by rw [hwc], by rw [hwc]⟩
  unfold FS.lookup_file_by_inode FS.lookup_record_by_inode
    INodeIndex.lookup_inode
  rw [hkey.2]
  unfold INodeIndex.update_inode
  rw [lookupA_insertA_self]

/-- Counterexample to claim C5 as stated: at `offset = usize::MAX` with one
byte of data, the `usize` addition `offset + data.len()` wraps to 0 and the
splice range `[offset, 0)` is invalid, so `write_to_file` crashes (panics)
instead of returning `len(data) = 1`. -/
theorem write_overflow_crashes :
    (fsFile.write_to_file 7 ⟨2⟩ (USIZE - 1) [97]).1 = .crash := by
  have hf : fsFile.lookup_file_by_inode ⟨2⟩ =
      .ok ⟨⟨⟨[]⟩, 0, attrs0⟩, ⟨2⟩, .file ⟨⟨[]⟩, 0, attrs0⟩⟩ := by decide
  have hread := read_all fsFile ⟨2⟩ _ hf (by norm_num [USIZE])
  have hpos : USIZE - 1 > 0 := by norm_num [USIZE]
  have hmod : (USIZE - 1 + 1) % USIZE = 0 := by
    have h1 : USIZE - 1 + 1 = USIZE := by norm_num [USIZE]
    rw [h1, Nat.mod_self]
  unfold FS.write_to_file
  rw [hf, hread]
  simp only [List.length_cons, List.length_nil, Nat.zero_add, hmod]
  rw [if_pos hpos]
  rw [if_neg (Nat.not_lt_zero _)]
  rw [if_neg (by
    intro hcontra
    have h2 := hcontra.1
    have h3 : (0 : Nat) < USIZE - 1 := by norm_num [USIZE]
    omega)]

/-- Witness for claim C5 (scenario S4): on the fresh empty file of inode 2,
`write(2, 5, "abc")` returns 3 and leaves the 8 bytes
00 00 00 00 00 61 62 63 with size 8. -/
theorem write_semantics_witness :
    fsFile.lookup_file_by_inode ⟨2⟩ =
      .ok ⟨⟨⟨[]⟩, 0, attrs0⟩, ⟨2⟩, .file ⟨⟨[]⟩, 0, attrs0⟩⟩ ∧
    (5 : Nat) + 3 < USIZE ∧
    (fsFile.write_to_file 7 ⟨2⟩ 5 [97, 98, 99]).1 = .ok 3 ∧
    ∃ resp : INodeResponse FileRecord,
      fsWritten.lookup_file_by_inode ⟨2⟩ = .ok resp ∧
      resp.inner.content_hash.data = [0, 0, 0, 0, 0, 97, 98, 99] ∧
      resp.inner.size = 8 := by
  have hf : fsFile.lookup_file_by_inode ⟨2⟩ =
      .ok ⟨⟨⟨[]⟩, 0, attrs0⟩, ⟨2⟩, .file ⟨⟨[]⟩, 0, attrs0⟩⟩ := by decide
  have hw := write_semantics fsFile 7 ⟨2⟩ 5 [97, 98, 99] _ hf
    (by norm_num [USIZE]) (by norm_num [USIZE])
  refine ⟨hf, by norm_num [USIZE], hw.1, ?_⟩
  obtain ⟨resp, h1, h2, h3⟩ := hw.2
  exact ⟨resp, h1, by rw [h2]; decide, by rw [h3]; decide⟩

/-- Claim C6, amended with the no-overflow side condition: for a file inode
with content of length `len`, provided `offset + size` does not overflow
`usize`, `read_file` never fails: it returns empty bytes when
`offset ≥ len` and exactly the bytes in `[offset, min(offset + size, len))`
otherwise. -/
theorem read_clamps (s : FS) (inode : INode) (offset size : Nat)
    (file : INodeResponse FileRecord)
    (hf : s.lookup_file_by_inode inode = .ok file)
    (hov : offset + size < USIZE) :
    s.read_file_data_by_inode inode offset size =
      .ok ⟨file, ⟨readSlice file.inner.content_hash.data offset size⟩⟩ := by
  have hmod : (offset + size) % USIZE = offset + size := Nat.mod_eq_of_lt hov
  unfold FS.read_file_data_by_inode
  rw [hf]
  simp only [DataBlock.len, hmod]
  split
  · rename_i h1
    rw [readSlice, if_pos h1, DataBlock.empty]
  · rename_i h1
    rw [if_pos (by omega)]
    rw [readSlice, if_neg h1]

/-- Counterexample to claim C6 as stated: reading the 8-byte file at
`offset = 1` with `size = usize::MAX`, the clamp computation
`start + size` wraps to 0 and the slice `[1, 0)` is invalid, so
`read_file` crashes instead of returning bytes. -/
theorem read_overflow_crashes :
    fsWritten.read_file_data_by_inode ⟨2⟩ 1 (USIZE - 1) = .crash := by
  decide

/-- Witness for claim C6: reading the 8-byte file from offset 0 with the
over-large size 1024 succeeds and returns all 8 bytes, clamped. -/
theorem read_clamps_witness :
    fsWritten.lookup_file_by_inode ⟨2⟩ =
      .ok ⟨⟨⟨[0, 0, 0, 0, 0, 97, 98, 99]⟩, 8, ⟨0o755, 501, 20, 0, 7, 7, 0⟩⟩,
           ⟨2⟩, .file ⟨⟨[0, 0, 0, 0, 0, 97, 98, 99]⟩, 8,
             ⟨0o755, 501, 20, 0, 7, 7, 0⟩⟩⟩ ∧
    (0 : Nat) + 1024 < USIZE ∧
    fsWritten.read_file_data_by_inode ⟨2⟩ 0 1024 =
      .ok ⟨⟨⟨⟨[0, 0, 0, 0, 0, 97, 98, 99]⟩, 8, ⟨0o755, 501, 20, 0, 7, 7, 0⟩⟩,
            ⟨2⟩, .file ⟨⟨[0, 0, 0, 0, 0, 97, 98, 99]⟩, 8,
              ⟨0o755, 501, 20, 0, 7, 7, 0⟩⟩⟩,
           ⟨[0, 0, 0, 0, 0, 97, 98, 99]⟩⟩ := by
  have hf : fsWritten.lookup_file_by_inode ⟨2⟩ =
      .ok ⟨⟨⟨[0, 0, 0, 0, 0, 97, 98, 99]⟩, 8, ⟨0o755, 501, 20, 0, 7, 7, 0⟩⟩,
           ⟨2⟩, .file ⟨⟨[0, 0, 0, 0, 0, 97, 98, 99]⟩, 8,
             ⟨0o755, 501, 20, 0, 7, 7, 0⟩⟩⟩ := by decide
  refine ⟨hf, by norm_num [USIZE], ?_⟩
  have hr := read_clamps fsWritten ⟨2⟩ 0 1024 _ hf (by norm_num [USIZE])
  rw [hr]
  decide

/-! ### Helper lemmas for store monotonicity -/

theorem mem_addBlob (s : List Blob) (b b2 : Blob) (h : b ∈ s) :
    b ∈ addBlob s b2 := by
  unfold addBlob
  split
  · exact h
  · exact List.mem_cons_of_mem _ h

theorem store_new_mem (s : FS) (b2 b : Blob) (h : b ∈ s.store) :
    b ∈ (s.store_new b2).store :=
  mem_addBlob _ _ _ h

theorem delete_record_store (s : FS) (r : Record) :
    (s.delete_record r).store = s.store := by
  cases r <;> rfl

theorem delete_data_store (s : FS) (d : DataBlock) :
    (s.delete_data d).store = s.store := rfl

theorem replace_record_mem (s : FS) (p v : Record) (b : Blob)
    (h : b ∈ s.store) : b ∈ (s.replace_record p v).store := by
  unfold FS.replace_record
  refine store_new_mem _ _ _ ?_
  rw [delete_record_store]
  exact h

theorem replace_data_mem (s : FS) (p v : DataBlock) (b : Blob)
    (h : b ∈ s.store) : b ∈ (s.replace_data p v).store :=
  store_new_mem _ _ _ h

theorem replace_index_mem (s : FS) (p v : INodeIndex) (b : Blob)
    (h : b ∈ s.store) : b ∈ (s.replace_index p v).store :=
  store_new_mem _ _ _ h

theorem update_index_mem (s : FS) (i : INode) (r : Record) (b : Blob)
    (h : b ∈ s.store) : b ∈ (s.update_index i r).2.store := by
  unfold FS.update_index
  cases hl : s.root.lookup_inode i with
  | none => exact h
  | some prev => exact replace_index_mem _ _ _ _ (replace_record_mem _ _ _ _ h)

theorem update_index_eq_mem (s : FS) (i : INode) (r : Record)
    (q : Res Unit × FS) (heq : FS.update_index s i r = q) (b : Blob)
    (h : b ∈ s.store) : b ∈ q.2.store := by
  rw [← heq]
  exact update_index_mem s i r b h

theorem add_child_mem (s : FS) (p : INode) (f : Filename) (r : Record)
    (b : Blob) (h : b ∈ s.store) : b ∈ (s.add_child p f r).2.store := by
  simp only [FS.add_child, INodeIndex.insert_new_inode]
  repeat' split
  all_goals try exact h
  all_goals rename_i heq
  all_goals exact update_index_eq_mem _ _ _ _ heq b (replace_index_mem _ _ _ _ (store_new_mem _ _ _ h))

theorem create_file_store_mono (s : FS) (p : INode) (n : Filename)
    (a : CommonAttrs) (b : Blob) (h : b ∈ s.store) :
    b ∈ (s.create_file p n a).2.store := by
  simp only [FS.create_file]
  repeat' split
  all_goals rename_i heq
  all_goals
    have h2 := add_child_mem (s.store_new (.data DataBlock.empty)) p n
      (.file ⟨DataBlock.empty, DataBlock.empty.len, a⟩) b
      (store_new_mem _ _ _ h)
  all_goals rw [heq] at h2
  all_goals exact h2

theorem create_directory_store_mono (s : FS) (p : INode) (n : Filename)
    (a : CommonAttrs) (b : Blob) (h : b ∈ s.store) :
    b ∈ (s.create_directory p n a).2.store := by
  simp only [FS.create_directory]
  repeat' split
  all_goals rename_i heq
  all_goals have h2 := add_child_mem s p n (.directory ⟨[], a, p⟩) b h
  all_goals rw [heq] at h2
  all_goals exact h2

theorem write_store_mono (s : FS) (now : Nat) (i : INode) (off : Nat)
    (data : List Nat) (b : Blob) (h : b ∈ s.store) :
    b ∈ (s.write_to_file now i off data).2.store := by
  simp only [FS.write_to_file]
  repeat' split
  all_goals try exact h
  all_goals rename_i heq
  all_goals exact update_index_eq_mem _ _ _ _ heq b (replace_data_mem _ _ _ _ h)

theorem remove_directory_store_mono (s : FS) (p : INode) (n : Filename)
    (b : Blob) (h : b ∈ s.store) :
    b ∈ (s.remove_directory_by_name p n).2.store := by
  simp only [FS.remove_directory_by_name]
  repeat' split
  all_goals try exact h
  all_goals exact update_index_mem _ _ _ b h

theorem remove_file_store_mono (s : FS) (p : INode) (n : Filename)
    (b : Blob) (h : b ∈ s.store) :
    b ∈ (s.remove_file_by_name p n).2.store := by
  simp only [FS.remove_file_by_name]
  repeat' split
  all_goals try exact h
  all_goals try exact (delete_record_store _ _).symm ▸ h
  all_goals
    refine update_index_mem _ _ _ b ?_
    rw [delete_record_store]
    exact h

theorem update_attrs_store_mono (s : FS) (i : INode) (a : CommonAttrs)
    (b : Blob) (h : b ∈ s.store) :
    b ∈ (s.update_attributes_by_inode i a).2.store := by
  simp only [FS.update_attributes_by_inode]
  repeat' split
  all_goals try exact h
  all_goals rename_i heq
  all_goals exact update_index_eq_mem _ _ _ _ heq b h

theorem step_store_mono (op : OpCall) (s : FS) (b : Blob)
    (h : b ∈ s.store) : b ∈ (step op s).2.store := by
  cases op <;> simp only [step]
  case createFile p n a =>
    split <;> rename_i heq <;>
    · have h2 := create_file_store_mono s p n a b h
      rw [heq] at h2
      exact h2
  case createDirectory p n a =>
    split <;> rename_i heq <;>
    · have h2 := create_directory_store_mono s p n a b h
      rw [heq] at h2
      exact h2
  case writeToFile now i off data =>
    split <;> rename_i heq <;>
    · have h2 := write_store_mono s now i off data b h
      rw [heq] at h2
      exact h2
  case removeDirectoryByName p n =>
    split <;> rename_i heq <;>
    · have h2 := remove_directory_store_mono s p n b h
      rw [heq] at h2
      exact h2
  case removeFileByName p n =>
    split <;> rename_i heq <;>
    · have h2 := remove_file_store_mono s p n b h
      rw [heq] at h2
      exact h2
  case updateAttributesByInode i a =>
    split <;> rename_i heq <;>
    · have h2 := update_attrs_store_mono s i a b h
      rw [heq] at h2
      exact h2
  all_goals split <;> exact h

theorem runSeq_store_mono (ops : List OpCall) (s : FS) (b : Blob)
    (h : b ∈ s.store) : b ∈ (runSeq ops s).1.store := by
  induction ops generalizing s with
  | nil => exact h
  | cons op ops ih =>
    rw [runSeq_fst]
    exact ih (step op s).2 (step_store_mono op s b h)

/-- Claim C10, confirmed: `delete_content` leaves the content store
untouched (it only mutates the manifest, cascades included), the replace
operations only add blobs, every blob present survives ANY sequence of
engine operations, and concretely a removed file is still fully resolvable
through its stale inode mapping: after removing the 8-byte file "x", both
its record lookup and a read of its data still succeed. -/
theorem store_is_append_only :
    (∀ (s : FS) (r : Record), (s.delete_record r).store = s.store) ∧
    (∀ (s : FS) (d : DataBlock), (s.delete_data d).store = s.store) ∧
    (∀ (s : FS) (p v : Record) (b : Blob),
      b ∈ s.store → b ∈ (s.replace_record p v).store) ∧
    (∀ (s : FS) (p v : DataBlock) (b : Blob),
      b ∈ s.store → b ∈ (s.replace_data p v).store) ∧
    (∀ (s : FS) (p v : INodeIndex) (b : Blob),
      b ∈ s.store → b ∈ (s.replace_index p v).store) ∧
    (∀ (ops : List OpCall) (s : FS) (b : Blob),
      b ∈ s.store → b ∈ (runSeq ops s).1.store) ∧
    (fsWritten.remove_file_by_name ⟨1⟩ nameX).1 = .ok () ∧
    fsWrittenRemoved.read_file_data_by_inode ⟨2⟩ 0 1024 =
      .ok ⟨⟨⟨⟨[0, 0, 0, 0, 0, 97, 98, 99]⟩, 8, ⟨0o755, 501, 20, 0, 7, 7, 0⟩⟩,
            ⟨2⟩, .file ⟨⟨[0, 0, 0, 0, 0, 97, 98, 99]⟩, 8,
              ⟨0o755, 501, 20, 0, 7, 7, 0⟩⟩⟩,
           ⟨[0, 0, 0, 0, 0, 97, 98, 99]⟩⟩ :=
  ⟨delete_record_store, delete_data_store,
   fun s p v b h => replace_record_mem s p v b h,
   fun s p v b h => replace_data_mem s p v b h,
   fun s p v b h => replace_index_mem s p v b h,
   fun ops s b h => runSeq_store_mono ops s b h,
   by decide, by decide⟩

/-- Witness for claim C10: the empty data block stored by
`create_file(1, "x")` is present in the store of `fsFile` and is still
present after running the remove of "x" as an operation sequence. -/
theorem store_is_append_only_witness :
    Blob.data ⟨[]⟩ ∈ fsFile.store ∧
    Blob.data ⟨[]⟩ ∈
      (runSeq [.removeFileByName ⟨1⟩ nameX] fsFile).1.store :=
  ⟨by decide,
   store_is_append_only.2.2.2.2.2.1 [.removeFileByName ⟨1⟩ nameX] fsFile
     (Blob.data ⟨[]⟩) (by decide)⟩

/-! ### The byte-level blob store claims -/

/-- Counterexample to claim C7 as stated: on the empty store, `get_content`
of an absent hash RETURNS successfully — the empty byte vector, via
`unwrap_or_default()` — rather than failing with `MissingBlob` (the Rust
signature `fn get_content(&self, hash) -> Vec<u8>` has no failure channel
at all). -/
theorem get_absent_returns_empty :
    InMemoryContentStore.get_content ⟨[]⟩ (hashBytes [1, 2, 3]) = [] ∧
    lookupA (⟨[]⟩ : InMemoryContentStore).store (hashBytes [1, 2, 3]) =
      none := by
  decide

/-- Claim C7, amended: `get_content` of a present hash returns exactly the
stored bytes (in particular a put followed by a get of the returned hash
round-trips), and `get_content` of an absent hash returns the empty byte
vector without failing. -/
theorem get_present_exact :
    (∀ (s : InMemoryContentStore) (c : List Nat),
      ((s.add_content c).1).get_content (s.add_content c).2 = c) ∧
    (∀ (s : InMemoryContentStore) (h b : List Nat),
      lookupA s.store h = some b → s.get_content h = b) ∧
    (∀ (s : InMemoryContentStore) (h : List Nat),
      lookupA s.store h = none → s.get_content h = []) := by
  refine ⟨fun s c => ?_, fun s h b hl => ?_, fun s h hl => ?_⟩
  · unfold InMemoryContentStore.add_content InMemoryContentStore.get_content
    simp only []
    rw [lookupA_insertA_self]
    rfl
  · unfold InMemoryContentStore.get_content
    rw [hl]
    rfl
  · unfold InMemoryContentStore.get_content
    rw [hl]
    rfl

/-- Witness for claim C7: a put of `[5, 6]` followed by a get of its hash
returns `[5, 6]`; a store holding the blob `[7]` returns it on get. -/
theorem get_present_exact_witness :
    ((⟨[]⟩ : InMemoryContentStore).add_content [5, 6]).1.get_content
      ((⟨[]⟩ : InMemoryContentStore).add_content [5, 6]).2 = [5, 6] ∧
    lookupA (⟨[(hashBytes [7], [7])]⟩ : InMemoryContentStore).store
      (hashBytes [7]) = some [7] ∧
    (⟨[(hashBytes [7], [7])]⟩ : InMemoryContentStore).get_content
      (hashBytes [7]) = [7] :=
  ⟨get_present_exact.1 _ _, by decide,
   get_present_exact.2.1 _ _ _ (by decide)⟩

namespace Codec

/-! ### Codec round-trip lemmas -/

theorem leBytes_length (k n : Nat) : (leBytes k n).length = k := by
  induction k generalizing n with
  | zero => rfl
  | succ k ih => simp [leBytes, ih]

theorem fromLe_leBytes (k n : Nat) (h : n < 256 ^ k) :
    fromLe (leBytes k n) = n := by
  induction k generalizing n with
  | zero =>
    simp [leBytes, fromLe]
    omega
  | succ k ih =>
    rw [leBytes, fromLe, ih (n / 256) (by
      rw [Nat.pow_succ] at h
      omega)]
    omega

theorem decFixed_append (k : Nat) (l rest : List Nat) (h : l.length = k) :
    decFixed k (l ++ rest) = some (fromLe l, rest) := by
  unfold decFixed
  rw [if_pos (by simp [h])]
  rw [← h, List.take_left, List.drop_left]

theorem decFixed_leBytes (k n : Nat) (rest : List Nat) (h : n < 256 ^ k) :
    decFixed k (leBytes k n ++ rest) = some (n, rest) := by
  rw [decFixed_append k _ rest (leBytes_length k n), fromLe_leBytes k n h]

theorem decU64_encU64 (n : Nat) (rest : List Nat) (h : n < 2 ^ 64) :
    decU64 (encU64 n ++ rest) = some (n, rest) := by
  unfold encU64
  by_cases h1 : n < 251
  · rw [if_pos h1]
    simp [decU64, h1]
  · rw [if_neg h1]
    by_cases h2 : n < 2 ^ 16
    · rw [if_pos h2, List.cons_append]
      rw [show ∀ l : List Nat, decU64 (251 :: l) = decFixed 2 l from
        fun l => rfl]
      exact decFixed_leBytes 2 n rest (by norm_num at h2 ⊢; omega)
    · rw [if_neg h2]
      by_cases h3 : n < 2 ^ 32
      · rw [if_pos h3, List.cons_append]
        rw [show ∀ l : List Nat, decU64 (252 :: l) = decFixed 4 l from
          fun l => rfl]
        exact decFixed_leBytes 4 n rest (by norm_num at h3 ⊢; omega)
      · rw [if_neg h3, List.cons_append]
        rw [show ∀ l : List Nat, decU64 (253 :: l) = decFixed 8 l from
          fun l => rfl]
        exact decFixed_leBytes 8 n rest (by norm_num at h ⊢; omega)

theorem decBytes_encBytes (l rest : List Nat) (h : l.length < 2 ^ 64) :
    decBytes (encBytes l ++ rest) = some (l, rest) := by
  unfold encBytes decBytes
  rw [List.append_assoc, decU64_encU64 _ _ h]
  show (if l.length ≤ (l ++ rest).length then
    some (List.take l.length (l ++ rest), List.drop l.length (l ++ rest))
    else none) = some (l, rest)
  rw [if_pos (by simp)]
  rw [List.take_left, List.drop_left]

theorem decHash_encHash (h : HashId) (rest : List Nat)
    (hwf : WfHash h) :
    decHash (encHash h ++ rest) = some (h, rest) := by
  unfold encHash decHash WfHash at *
  rw [if_pos (by simp [hwf])]
  rw [← hwf, List.take_left, List.drop_left]

theorem decINode_encINode (i : INode) (rest : List Nat) (hwf : WfINode i) :
    decINode (encINode i ++ rest) = some (i, rest) := by
  unfold encINode decINode
  rw [decU64_encU64 _ _ hwf]

theorem decFilename_encFilename (f : Filename) (rest : List Nat)
    (hwf : WfFilename f) :
    decFilename (encFilename f ++ rest) = some (f, rest) := by
  unfold encFilename decFilename
  rw [decBytes_encBytes _ _ hwf]

theorem decDataBlock_encDataBlock (d : DataBlock) (rest : List Nat)
    (hwf : WfDataBlock d) :
    decDataBlock (encDataBlock d ++ rest) = some (d, rest) := by
  unfold encDataBlock decDataBlock
  rw [decBytes_encBytes _ _ hwf]

theorem decTime_encTime (t : WTime) (rest : List Nat) (hwf : WfTime t) :
    decTime (encTime t ++ rest) = some (t, rest) := by
  unfold encTime decTime
  rw [List.append_assoc, decU64_encU64 _ _ hwf.1]
  simp only []
  rw [decU64_encU64 _ _ hwf.2]

theorem decAttrs_encAttrs (a : WAttrs) (rest : List Nat) (hwf : WfAttrs a) :
    decAttrs (encAttrs a ++ rest) = some (a, rest) := by
  obtain ⟨h1, h2, h3, h4, h5, h6, h7⟩ := hwf
  unfold encAttrs decAttrs
  simp only [List.append_assoc]
  rw [decU64_encU64 _ _ h1]
  simp only []
  rw [decU64_encU64 _ _ h2]
  simp only []
  rw [decU64_encU64 _ _ h3]
  simp only []
  rw [decTime_encTime _ _ h4]
  simp only []
  rw [decTime_encTime _ _ h5]
  simp only []
  rw [decTime_encTime _ _ h6]
  simp only []
  rw [decTime_encTime _ _ h7]

theorem decFileRecord_encFileRecord (f : WFileRecord) (rest : List Nat)
    (hwf : WfFileRecord f) :
    decFileRecord (encFileRecord f ++ rest) = some (f, rest) := by
  obtain ⟨h1, h2, h3⟩ := hwf
  unfold encFileRecord decFileRecord
  simp only [List.append_assoc]
  rw [decHash_encHash _ _ h1]
  simp only []
  rw [decU64_encU64 _ _ h2]
  simp only []
  rw [decAttrs_encAttrs _ _ h3]

theorem decList_enc {α : Type} (enc : α → List Nat)
    (dec : List Nat → Option (α × List Nat)) (l : List α)
    (hdec : ∀ a ∈ l, ∀ r, dec (enc a ++ r) = some (a, r)) (rest : List Nat) :
    decList dec l.length ((l.map enc).flatten ++ rest) = some (l, rest) := by
  induction l with
  | nil => simp [decList]
  | cons a l ih =>
    simp only [List.map_cons, List.flatten_cons, List.length_cons,
      List.append_assoc]
    rw [decList]
    rw [hdec a (by simp) _]
    simp only []
    rw [ih (fun b hb r => hdec b (by simp [hb]) r)]

theorem decChild_encChild (p : Filename × INode) (rest : List Nat)
    (h1 : WfFilename p.1) (h2 : WfINode p.2) :
    decChild (encChild p ++ rest) = some (p, rest) := by
  unfold encChild decChild
  rw [List.append_assoc, decFilename_encFilename _ _ h1]
  simp only []
  rw [decINode_encINode _ _ h2]

theorem decChildren_encChildren (l : List (Filename × INode))
    (rest : List Nat) (hlen : l.length < 2 ^ 64)
    (hels : ∀ p ∈ l, WfFilename p.1 ∧ WfINode p.2) :
    decChildren (encChildren l ++ rest) = some (l, rest) := by
  unfold encChildren decChildren
  rw [List.append_assoc, decU64_encU64 _ _ hlen]
  simp only []
  exact decList_enc encChild decChild l
    (fun a ha r => decChild_encChild a r (hels a ha).1 (hels a ha).2) rest

theorem decDirectoryRecord_enc (d : WDirectoryRecord) (rest : List Nat)
    (hwf : WfDirectoryRecord d) :
    decDirectoryRecord (encDirectoryRecord d ++ rest) = some (d, rest) := by
  obtain ⟨h1, h2, h3, h4⟩ := hwf
  unfold encDirectoryRecord decDirectoryRecord
  simp only [List.append_assoc]
  rw [decChildren_encChildren _ _ h1 h2]
  simp only []
  rw [decAttrs_encAttrs _ _ h3]
  simp only []
  rw [decINode_encINode _ _ h4]

theorem decRecord_encRecord (r : WRecord) (rest : List Nat)
    (hwf : WfRecord r) :
    decRecord (encRecord r ++ rest) = some (r, rest) := by
  cases r with
  | file f =>
    unfold encRecord decRecord
    rw [List.append_assoc, decU64_encU64 0 _ (by norm_num)]
    simp only []
    rw [decFileRecord_encFileRecord _ _ hwf]
  | directory d =>
    unfold encRecord decRecord
    rw [List.append_assoc, decU64_encU64 1 _ (by norm_num)]
    simp only []
    rw [decDirectoryRecord_enc _ _ hwf]

theorem decMapping_encMapping (p : INode × HashId) (rest : List Nat)
    (h1 : WfINode p.1) (h2 : WfHash p.2) :
    decMapping (encMapping p ++ rest) = some (p, rest) := by
  unfold encMapping decMapping
  rw [List.append_assoc, decINode_encINode _ _ h1]
  simp only []
  rw [decHash_encHash _ _ h2]

theorem decIndex_encIndex (x : WINodeIndex) (rest : List Nat)
    (hwf : WfIndex x) :
    decIndex (encIndex x ++ rest) = some (x, rest) := by
  obtain ⟨h1, h2, h3⟩ := hwf
  unfold encIndex decIndex
  simp only [List.append_assoc]
  rw [decINode_encINode _ _ h1]
  simp only []
  rw [decU64_encU64 _ _ h2]
  simp only []
  rw [decList_enc encMapping decMapping x.inode_mapping
    (fun a ha r => decMapping_encMapping a r (h3 a ha).1 (h3 a ha).2) rest]

/-- Claim C8, the round-trip half, confirmed for every stored type: for
every well-formed wire value (fields within their Rust integer ranges, a
32-byte hash), decoding its encoding consumes exactly the encoding and
yields an equal value. -/
theorem codec_round_trip :
    (∀ (d : DataBlock) (rest : List Nat), WfDataBlock d →
      decDataBlock (encDataBlock d ++ rest) = some (d, rest)) ∧
    (∀ (f : Filename) (rest : List Nat), WfFilename f →
      decFilename (encFilename f ++ rest) = some (f, rest)) ∧
    (∀ (h : HashId) (rest : List Nat), WfHash h →
      decHash (encHash h ++ rest) = some (h, rest)) ∧
    (∀ (f : WFileRecord) (rest : List Nat), WfFileRecord f →
      decFileRecord (encFileRecord f ++ rest) = some (f, rest)) ∧
    (∀ (d : WDirectoryRecord) (rest : List Nat), WfDirectoryRecord d →
      decDirectoryRecord (encDirectoryRecord d ++ rest) = some (d, rest)) ∧
    (∀ (r : WRecord) (rest : List Nat), WfRecord r →
      decRecord (encRecord r ++ rest) = some (r, rest)) ∧
    (∀ (x : WINodeIndex) (rest : List Nat), WfIndex x →
      decIndex (encIndex x ++ rest) = some (x, rest)) :=
  ⟨fun d rest h => decDataBlock_encDataBlock d rest h,
   fun f rest h => decFilename_encFilename f rest h,
   fun h rest hh => decHash_encHash h rest hh,
   fun f rest h => decFileRecord_encFileRecord f rest h,
   fun d rest h => decDirectoryRecord_enc d rest h,
   fun r rest h => decRecord_encRecord r rest h,
   fun x rest h => decIndex_encIndex x rest h⟩

/-- Witness for claim C8: the round-trip evaluated on concrete values of
each type, among them a directory record with two children and an index
with one mapping. -/
theorem codec_round_trip_witness :
    WfDataBlock ⟨[9, 8]⟩ ∧
    decDataBlock (encDataBlock ⟨[9, 8]⟩ ++ [5]) = some (⟨[9, 8]⟩, [5]) ∧
    WfRecord (.directory ⟨[(⟨[97]⟩, ⟨2⟩), (⟨[98]⟩, ⟨3⟩)],
      ⟨493, 501, 20, ⟨1, 2⟩, ⟨3, 4⟩, ⟨5, 6⟩, ⟨7, 8⟩⟩, ⟨1⟩⟩) ∧
    decRecord (encRecord (.directory ⟨[(⟨[97]⟩, ⟨2⟩), (⟨[98]⟩, ⟨3⟩)],
      ⟨493, 501, 20, ⟨1, 2⟩, ⟨3, 4⟩, ⟨5, 6⟩, ⟨7, 8⟩⟩, ⟨1⟩⟩) ++ []) =
      some (.directory ⟨[(⟨[97]⟩, ⟨2⟩), (⟨[98]⟩, ⟨3⟩)],
        ⟨493, 501, 20, ⟨1, 2⟩, ⟨3, 4⟩, ⟨5, 6⟩, ⟨7, 8⟩⟩, ⟨1⟩⟩, []) ∧
    WfIndex ⟨⟨2⟩, [(⟨1⟩, ⟨List.replicate 32 7⟩)]⟩ ∧
    decIndex (encIndex ⟨⟨2⟩, [(⟨1⟩, ⟨List.replicate 32 7⟩)]⟩ ++ []) =
      some (⟨⟨2⟩, [(⟨1⟩, ⟨List.replicate 32 7⟩)]⟩, []) :=
  ⟨by decide, codec_round_trip.1 _ _ (by decide),
   by decide, codec_round_trip.2.2.2.2.2.1 _ _ (by decide),
   by decide, codec_round_trip.2.2.2.2.2.2 _ _ (by decide)⟩

/-- Counterexample to the determinism half of claim C8: two directory
records that are EQUAL as Rust values (`HashMap` equality ignores entry
order; attributes and parent identical) encode to different byte
sequences, because the encoder emits the hash-map entries in iteration
order.  Same value, different bytes, hence different HashIds. -/
theorem encode_depends_on_map_order :
    childrenEq [(⟨[97]⟩, ⟨2⟩), (⟨[98]⟩, ⟨3⟩)]
      [(⟨[98]⟩, ⟨3⟩), (⟨[97]⟩, ⟨2⟩)] ∧
    childrenEq [(⟨[98]⟩, ⟨3⟩), (⟨[97]⟩, ⟨2⟩)]
      [(⟨[97]⟩, ⟨2⟩), (⟨[98]⟩, ⟨3⟩)] ∧
    encDirectoryRecord ⟨[(⟨[97]⟩, ⟨2⟩), (⟨[98]⟩, ⟨3⟩)],
      ⟨493, 501, 20, ⟨0, 0⟩, ⟨0, 0⟩, ⟨0, 0⟩, ⟨0, 0⟩⟩, ⟨1⟩⟩ ≠
    encDirectoryRecord ⟨[(⟨[98]⟩, ⟨3⟩), (⟨[97]⟩, ⟨2⟩)],
      ⟨493, 501, 20, ⟨0, 0⟩, ⟨0, 0⟩, ⟨0, 0⟩, ⟨0, 0⟩⟩, ⟨1⟩⟩ := by
  refine ⟨by decide, by decide, ?_⟩
  decide

end Codec

end BridgeFS
